import Mathlib

/-!
Shallow embedding of the MS/TP protocol logic of the BACman repository
(scripts/mstp_simulator.py, scripts/mstp_sniffer.py, scripts/mstp_test_sender.py,
scripts/crc_test.py), together with theorems settling the claims about it.

Bytes are modelled as `Nat` (Python integers are unbounded; `& 0xFF`-style
masks appear exactly where the source has them).  Python's `(~c) & 0xFF` on a
nonnegative `c` equals `255 - c % 256`, and `(~c) & 0xFFFF` equals
`65535 - c % 65536`; those are the translations used below.
-/

namespace MSTP

/-- Eight applications of a function: models `for _ in range(8)` loops. -/
def iter8 (f : Nat → Nat) (x : Nat) : Nat :=
  f (f (f (f (f (f (f (f x)))))))

namespace Sender

/-- One shift-and-conditional-XOR round of `mstp_test_sender.crc8_header`:
`crc = (crc >> 1) ^ 0x8C` when the low bit is set, else `crc >>= 1`. -/
def crc8_round (c : Nat) : Nat :=
  if c % 2 = 1 then (c / 2) ^^^ 0x8C else c / 2

/-- Per-byte update of `mstp_test_sender.crc8_header`: XOR the byte in, then
eight reduction rounds. -/
def crc8_update (c b : Nat) : Nat := iter8 crc8_round (c ^^^ b)

/-- `mstp_test_sender.crc8_header`: bitwise reflected CRC-8, constant 0x8C,
initial register 0xFF, output `(~crc) & 0xFF`. -/
def crc8_header (data : List Nat) : Nat :=
  255 - (data.foldl crc8_update 0xFF) % 256

/-- One round of `mstp_test_sender.crc16_data` (constant 0x8408). -/
def crc16_round (c : Nat) : Nat :=
  if c % 2 = 1 then (c / 2) ^^^ 0x8408 else c / 2

/-- Per-byte update of `mstp_test_sender.crc16_data`. -/
def crc16_update (c b : Nat) : Nat := iter8 crc16_round (c ^^^ b)

/-- `mstp_test_sender.crc16_data`: reflected CRC-16/CCITT, initial 0xFFFF,
output `(~crc) & 0xFFFF`. -/
def crc16_data (data : List Nat) : Nat :=
  65535 - (data.foldl crc16_update 0xFFFF) % 65536

/-- `mstp_test_sender.build_mstp_frame`: `data is None` gives the 8-byte
header-only frame; any other `data` (including the empty byte string) gets a
length field and a trailing little-endian data CRC. -/
def build_mstp_frame (frame_type dest_addr src_addr : Nat)
    (data : Option (List Nat)) : List Nat :=
  match data with
  | none =>
      let header := [frame_type, dest_addr, src_addr, 0x00, 0x00]
      [0x55, 0xFF] ++ header ++ [crc8_header header]
  | some d =>
      let data_len := d.length
      let header := [frame_type, dest_addr, src_addr,
        (data_len >>> 8) &&& 0xFF, data_len &&& 0xFF]
      let data_crc := crc16_data d
      [0x55, 0xFF] ++ header ++ [crc8_header header] ++ d ++
        [data_crc &&& 0xFF, (data_crc >>> 8) &&& 0xFF]

end Sender

namespace CrcTest

/-- `crc_test.crc8_header_python` (the same loop as the test sender's). -/
def crc8_header_python (data : List Nat) : Nat :=
  255 - (data.foldl Sender.crc8_update 0xFF) % 256

/-- Per-byte update of `crc_test.crc8_header_rust_style`: the XOR cascade,
with no 0xFFFF mask on the cascaded term. -/
def rust_update (c b : Nat) : Nat :=
  let temp := (c ^^^ b) &&& 0xFF
  let temp16 := temp ^^^ (temp <<< 1) ^^^ (temp <<< 2) ^^^ (temp <<< 3) ^^^
    (temp <<< 4) ^^^ (temp <<< 5) ^^^ (temp <<< 6) ^^^ (temp <<< 7)
  ((temp16 &&& 0xFE) ^^^ ((temp16 >>> 8) &&& 1)) &&& 0xFF

/-- `crc_test.crc8_header_rust_style`. -/
def crc8_header_rust_style (data : List Nat) : Nat :=
  255 - (data.foldl rust_update 0xFF) % 256

end CrcTest

namespace Sniffer

/-- `mstp_sniffer.crc8`: same loop as the sender's, but the output is
`crc ^ 0xFF` with no mask. -/
def crc8 (data : List Nat) : Nat :=
  (data.foldl Sender.crc8_update 0xFF) ^^^ 0xFF

/-- `mstp_sniffer.crc16`: same loop as the sender's, output `crc ^ 0xFFFF`. -/
def crc16 (data : List Nat) : Nat :=
  (data.foldl Sender.crc16_update 0xFFFF) ^^^ 0xFFFF

end Sniffer

namespace Sim

/-- Per-byte update of `mstp_simulator.crc8_header`: XOR the byte in (masked
to 8 bits), XOR-cascade the result through seven left shifts (masked to 16
bits), then fold the shifted-out bits back in. -/
def crc8_update (c b : Nat) : Nat :=
  let temp := (c ^^^ b) &&& 0xFF
  let temp' := (temp ^^^ (temp <<< 1) ^^^ (temp <<< 2) ^^^ (temp <<< 3) ^^^
    (temp <<< 4) ^^^ (temp <<< 5) ^^^ (temp <<< 6) ^^^ (temp <<< 7)) &&& 0xFFFF
  ((temp' &&& 0xFE) ^^^ ((temp' >>> 8) &&& 1)) &&& 0xFF

/-- `mstp_simulator.crc8_header`: the "parallel" per-byte XOR-cascade CRC-8,
initial register 0xFF, output `(~crc) & 0xFF`. -/
def crc8_header (data : List Nat) : Nat :=
  255 - (data.foldl crc8_update 0xFF) % 256

/-- `mstp_simulator.crc16_data` (identical loop to the test sender's). -/
def crc16_data (data : List Nat) : Nat :=
  65535 - (data.foldl Sender.crc16_update 0xFFFF) % 65536

/-- `mstp_simulator.build_frame`: `data is None or len(data) == 0` gives the
8-byte header-only frame, otherwise payload plus little-endian data CRC. -/
def build_frame (frame_type dest src : Nat) (data : Option (List Nat)) :
    List Nat :=
  match data with
  | none =>
      let header := [frame_type, dest, src, 0x00, 0x00]
      [0x55, 0xFF] ++ header ++ [crc8_header header]
  | some d =>
      if d.length = 0 then
        let header := [frame_type, dest, src, 0x00, 0x00]
        [0x55, 0xFF] ++ header ++ [crc8_header header]
      else
        let data_len := d.length
        let header := [frame_type, dest, src,
          (data_len >>> 8) &&& 0xFF, data_len &&& 0xFF]
        let data_crc := crc16_data d
        [0x55, 0xFF] ++ header ++ [crc8_header header] ++ d ++
          [data_crc &&& 0xFF, (data_crc >>> 8) &&& 0xFF]

end Sim

/-- A decoded MS/TP frame, as returned by `MstpSimulator.parse_frame`:
`(frame_type, dest, src, data)` with `data = None` for payload-less frames. -/
structure Frame where
  frame_type : Nat
  dest : Nat
  src : Nat
  data : Option (List Nat)
deriving DecidableEq, Repr

namespace Sim

/-- The preamble scan of `MstpSimulator.parse_frame`: index of the first
adjacent `0x55, 0xFF` pair, scanning pairs `(i, i+1)` left to right. -/
def findPreamble : List Nat → Option Nat
  | a :: b :: rest =>
      if a = 0x55 ∧ b = 0xFF then some 0
      else (findPreamble (b :: rest)).map (· + 1)
  | _ => none

/-- Frame-type constants per ASHRAE 135 Clause 9 (module-level constants of
`mstp_simulator.py`). -/
def FRAME_TOKEN : Nat := 0x00

def FRAME_POLL_FOR_MASTER : Nat := 0x01

def FRAME_REPLY_TO_POLL : Nat := 0x02

def FRAME_TEST_REQUEST : Nat := 0x03

def FRAME_TEST_RESPONSE : Nat := 0x04

def FRAME_BACNET_DATA_EXPECTING_REPLY : Nat := 0x05

def FRAME_BACNET_DATA_NOT_EXPECTING_REPLY : Nat := 0x06

/-- `MstpSimulator.parse_frame`, as a pure function from the receive buffer to
an optional decoded frame and the new receive buffer.  Mirrors the Python
statement by statement: early return below 8 bytes; keep only the last byte
when no preamble is found; discard bytes before the preamble; on a header-CRC
mismatch drop the two preamble bytes and report nothing; on a data-CRC
mismatch likewise drop the two preamble bytes and report nothing; otherwise
consume the frame and return it. -/
def parse_frame (buf : List Nat) : Option Frame × List Nat :=
  if buf.length < 8 then (none, buf)
  else
    match findPreamble buf with
    | none => (none, if 1 < buf.length then buf.drop (buf.length - 1) else buf)
    | some p =>
      let buf1 := buf.drop p
      if buf1.length < 8 then (none, buf1)
      else
        let frame_type := buf1.getD 2 0
        let dest := buf1.getD 3 0
        let src := buf1.getD 4 0
        let data_len := ((buf1.getD 5 0) <<< 8) ||| buf1.getD 6 0
        let header_crc := buf1.getD 7 0
        let calc_crc := crc8_header ((buf1.drop 2).take 5)
        if calc_crc ≠ header_crc then (none, buf1.drop 2)
        else
          let frame_size := if 0 < data_len then 8 + data_len + 2 else 8
          if buf1.length < frame_size then (none, buf1)
          else
            if 0 < data_len then
              let d := (buf1.drop 8).take data_len
              let data_crc_recv := buf1.getD (8 + data_len) 0 |||
                ((buf1.getD (8 + data_len + 1) 0) <<< 8)
              if crc16_data d ≠ data_crc_recv then (none, buf1.drop 2)
              else (some ⟨frame_type, dest, src, some d⟩, buf1.drop frame_size)
            else (some ⟨frame_type, dest, src, none⟩, buf1.drop 8)

/-- State of `MstpSimulator.handle_use_token` / `handle_frame` /
`discover_master`: `IDLE`, or `USE_TOKEN` while holding the token. -/
inductive Mode
  | IDLE
  | USE_TOKEN
deriving DecidableEq, Repr

/-- The master-station fields of `MstpSimulator` (the receive buffer is
handled separately by `parse_frame`, and the serial port is external). -/
structure SimState where
  mac : Nat
  max_master : Nat
  mode : Mode
  token_count : Nat
  frame_count : Nat
  known_masters : Finset Nat
  next_station : Option Nat
  tokens_received : Nat
  polls_received : Nat
  data_frames_received : Nat
  frames_sent : Nat
deriving DecidableEq

/-- `MstpSimulator.__init__(ser, mac_address, max_master=127)`. -/
def initSim (mac max_master : Nat) : SimState :=
  { mac := mac, max_master := max_master, mode := .IDLE, token_count := 0,
    frame_count := 0, known_masters := ∅, next_station := none,
    tokens_received := 0, polls_received := 0, data_frames_received := 0,
    frames_sent := 0 }

/-- An observable effect of the station: bytes written to the serial port, or
a blocking `time.sleep` (duration in microseconds). -/
inductive Action
  | send (frame : List Nat)
  | sleep_us (t : Nat)
deriving DecidableEq, Repr

/-- `MstpSimulator._update_next_station`: the next known master after our MAC
(first element of the sorted set exceeding it), wrapping to the lowest. -/
def update_next_station (mac : Nat) (km : Finset Nat) : Option Nat :=
  if km = ∅ then none
  else
    let masters := km.sort (· ≤ ·)
    match masters.find? (fun m => decide (mac < m)) with
    | some m => some m
    | none => masters.head?

/-- The §3 invariant's formula, translated from the spec's words: the
smallest known master address strictly greater than `own_address`, else the
smallest known master address overall, else `None`.  Used to state the
refinement of `_update_next_station` against the spec. -/
def nextStationSpec (mac : Nat) (km : Finset Nat) : Option Nat :=
  if h : (km.filter (fun m => mac < m)).Nonempty then
    some ((km.filter (fun m => mac < m)).min' h)
  else if h' : km.Nonempty then some (km.min' h') else none

/-- `MstpSimulator.discover_master`. -/
def discover_master (s : SimState) (mac : Nat) : SimState :=
  if mac ≠ s.mac ∧ mac ≤ s.max_master ∧ mac ∉ s.known_masters then
    let km := insert mac s.known_masters
    { s with known_masters := km,
             next_station := update_next_station s.mac km }
  else s

/-- `MstpSimulator.send_frame` (the written bytes become an `Action.send`). -/
def send_frame (s : SimState) (frame_type dest : Nat)
    (data : Option (List Nat)) : SimState × Action :=
  ({ s with frames_sent := s.frames_sent + 1 },
   .send (build_frame frame_type dest s.mac data))

/-- `MstpSimulator.handle_use_token`: pass the token to `next_station` if
known, otherwise poll `(mac + 1) % (max_master + 1)` and wait
`T_USAGE_TIMEOUT` (50 ms); in either case end in `IDLE`. -/
def handle_use_token (s : SimState) : SimState × List Action :=
  let s1 := { s with token_count := s.token_count + 1, frame_count := 0 }
  match s1.next_station with
  | some ns =>
      let (s2, a) := send_frame s1 FRAME_TOKEN ns none
      ({ s2 with mode := .IDLE }, [a])
  | none =>
      let poll_target := (s1.mac + 1) % (s1.max_master + 1)
      let (s2, a) := send_frame s1 FRAME_POLL_FOR_MASTER poll_target none
      ({ s2 with mode := .IDLE }, [a, .sleep_us 50000])

/-- The master-discovery step at the top of `MstpSimulator.handle_frame`:
every frame's source, plus a Token frame's destination, plus (again) a
Reply-To-Poll frame's source. -/
def discoverPhase (s : SimState) (f : Frame) : SimState :=
  let s1 := discover_master s f.src
  if f.frame_type = FRAME_TOKEN then discover_master s1 f.dest
  else if f.frame_type = FRAME_REPLY_TO_POLL then discover_master s1 f.src
  else s1

/-- `MstpSimulator.handle_frame`: discovery, then dispatch on frames addressed
to us (or broadcast 255).  `T_REPLY_DELAY` is 250 µs. -/
def handle_frame (s : SimState) (f : Frame) : SimState × List Action :=
  let s1 := discoverPhase s f
  if f.dest ≠ s1.mac ∧ f.dest ≠ 255 then (s1, [])
  else if f.frame_type = FRAME_TOKEN then
    let s2 := { s1 with tokens_received := s1.tokens_received + 1,
                        mode := .USE_TOKEN }
    handle_use_token s2
  else if f.frame_type = FRAME_POLL_FOR_MASTER then
    let s2 := { s1 with polls_received := s1.polls_received + 1 }
    let (s3, a) := send_frame s2 FRAME_REPLY_TO_POLL f.src none
    (s3, [.sleep_us 250, a])
  else if f.frame_type = FRAME_BACNET_DATA_EXPECTING_REPLY then
    ({ s1 with data_frames_received := s1.data_frames_received + 1 }, [])
  else if f.frame_type = FRAME_BACNET_DATA_NOT_EXPECTING_REPLY then
    ({ s1 with data_frames_received := s1.data_frames_received + 1 }, [])
  else if f.frame_type = FRAME_TEST_REQUEST then
    let (s2, a) := send_frame s1 FRAME_TEST_RESPONSE f.src f.data
    (s2, [.sleep_us 250, a])
  else (s1, [])

/-- The tail of `parse_frame` after the preamble scan and discard: what the
parser does on a buffer already positioned at its preamble.  `parse_frame`
is proved equal to `parseAt` of the repositioned buffer (theorem
`parse_frame_eq_parseAt`); this decomposition is only a vehicle for stating
lemmas about `parse_frame`. -/
def parseAt (buf1 : List Nat) : Option Frame × List Nat :=
  if buf1.length < 8 then (none, buf1)
  else
    let frame_type := buf1.getD 2 0
    let dest := buf1.getD 3 0
    let src := buf1.getD 4 0
    let data_len := ((buf1.getD 5 0) <<< 8) ||| buf1.getD 6 0
    let header_crc := buf1.getD 7 0
    let calc_crc := crc8_header ((buf1.drop 2).take 5)
    if calc_crc ≠ header_crc then (none, buf1.drop 2)
    else
      let frame_size := if 0 < data_len then 8 + data_len + 2 else 8
      if buf1.length < frame_size then (none, buf1)
      else
        if 0 < data_len then
          let d := (buf1.drop 8).take data_len
          let data_crc_recv := buf1.getD (8 + data_len) 0 |||
            ((buf1.getD (8 + data_len + 1) 0) <<< 8)
          if crc16_data d ≠ data_crc_recv then (none, buf1.drop 2)
          else (some ⟨frame_type, dest, src, some d⟩, buf1.drop frame_size)
        else (some ⟨frame_type, dest, src, none⟩, buf1.drop 8)

/-- Fuelled iteration of `parse_frame`, modelling the `run()` loop of the
simulator, which calls `parse_frame` once per iteration: keep parsing until
a call neither returns a frame nor changes the buffer.  Every
buffer-changing call strictly shrinks the buffer, so fuel equal to the
buffer length always reaches that fixpoint (theorem `drainF_fuel`). -/
def drainF : Nat → List Nat → List Nat × List Frame
  | 0, buf => (buf, [])
  | fuel + 1, buf =>
    match parse_frame buf with
    | (some f, buf') =>
        let r := drainF fuel buf'
        (r.1, f :: r.2)
    | (none, buf') =>
        if buf' = buf then (buf, [])
        else drainF fuel buf'

/-- Run `parse_frame` to quiescence on a buffer: the buffer left behind and
the frames decoded, in order. -/
def drain (buf : List Nat) : List Nat × List Frame :=
  drainF buf.length buf

/-- Feed the byte stream chunk by chunk, as `process_rx` does when bytes
arrive in instalments, letting the parse loop catch up after each chunk. -/
def feedChunks (buf : List Nat) : List (List Nat) → List Nat × List Frame
  | [] => (buf, [])
  | c :: cs =>
      let r1 := drain (buf ++ c)
      let r2 := feedChunks r1.1 cs
      (r2.1, r1.2 ++ r2.2)

/-- `j` is inert junk in front of buffer `B`: either empty, or `B` is
non-empty and no preamble pair occurs inside `j` or straddling from `j` into
`B`'s first byte.  Such junk can never influence which frames are decoded
from `B` extended by any future bytes. -/
def Junk (j B : List Nat) : Prop :=
  j = [] ∨ (B ≠ [] ∧ findPreamble (j ++ B.take 1) = none)

/-- Two receive buffers that differ only by inert junk in front of a common
core: they decode the same frames from any future byte arrivals. -/
def BufEquiv (B1 B2 : List Nat) : Prop :=
  ∃ m j1 j2, B1 = j1 ++ m ∧ B2 = j2 ++ m ∧ Junk j1 m ∧ Junk j2 m

end Sim

namespace Sniffer

/-- States of the `MstpSniffer` per-byte state machine. -/
inductive Mode
  | IDLE
  | PREAMBLE
  | HEADER
  | DATA
deriving DecidableEq, Repr

/-- The fields of `MstpSniffer` used by `process_byte`. -/
structure SnifferState where
  mode : Mode
  buffer : List Nat
  frame_type : Nat
  dst_addr : Nat
  src_addr : Nat
  data_len : Nat
  header_crc : Nat
  data : List Nat
  data_crc : Nat
  frame_count : Nat
deriving DecidableEq, Repr

/-- `MstpSniffer.__init__`. -/
def initSniffer : SnifferState :=
  { mode := .IDLE, buffer := [], frame_type := 0, dst_addr := 0,
    src_addr := 0, data_len := 0, header_crc := 0, data := [], data_crc := 0,
    frame_count := 0 }

/-- What `MstpSniffer._complete_frame` hands to its consumer: the fields that
`format_frame` receives.  There is no CRC-validity field. -/
structure Emitted where
  frame_num : Nat
  frame_type : Nat
  dst_addr : Nat
  src_addr : Nat
  data_len : Nat
  data : List Nat
deriving DecidableEq, Repr

/-- `MstpSniffer._complete_frame`. -/
def complete_frame (s : SnifferState) : SnifferState × Option Emitted :=
  let n := s.frame_count + 1
  ({ s with frame_count := n, mode := .IDLE, buffer := [], data := [] },
   some ⟨n, s.frame_type, s.dst_addr, s.src_addr, s.data_len, s.data⟩)

/-- `MstpSniffer.process_byte`.  On a header-CRC mismatch the frame is
abandoned (state back to `IDLE`, buffer cleared, nothing emitted).  On a
data-CRC mismatch the only effect is an optional verbose print: the frame is
completed and emitted exactly as a valid one would be. -/
def process_byte (s : SnifferState) (byte : Nat) :
    SnifferState × Option Emitted :=
  let s0 := { s with buffer := s.buffer ++ [byte] }
  match s0.mode with
  | .IDLE =>
      if byte = 0x55 then ({ s0 with mode := .PREAMBLE, buffer := [byte] }, none)
      else ({ s0 with buffer := [] }, none)
  | .PREAMBLE =>
      if byte = 0xFF then ({ s0 with mode := .HEADER }, none)
      else if byte = 0x55 then (s0, none)
      else ({ s0 with mode := .IDLE, buffer := [] }, none)
  | .HEADER =>
      if s0.buffer.length = 8 then
        let s1 := { s0 with frame_type := s0.buffer.getD 2 0,
                            dst_addr := s0.buffer.getD 3 0,
                            src_addr := s0.buffer.getD 4 0,
                            data_len := ((s0.buffer.getD 5 0) <<< 8) |||
                              s0.buffer.getD 6 0,
                            header_crc := s0.buffer.getD 7 0 }
        if crc8 ((s1.buffer.drop 2).take 5) ≠ s1.header_crc then
          ({ s1 with mode := .IDLE, buffer := [] }, none)
        else if 0 < s1.data_len then
          ({ s1 with mode := .DATA, data := [] }, none)
        else complete_frame s1
      else (s0, none)
  | .DATA =>
      let s1 := { s0 with data := s0.data ++ [byte] }
      if s1.data.length = s1.data_len + 2 then
        let s2 := { s1 with
          data_crc := ((s1.data.getD (s1.data.length - 1) 0) <<< 8) |||
            s1.data.getD (s1.data.length - 2) 0,
          data := s1.data.take (s1.data.length - 2) }
        complete_frame s2
      else (s1, none)

/-- Feed a list of bytes through `process_byte`, collecting emitted frames
(the `for byte in data` loop of the sniffer's `main`). -/
def run (s : SnifferState) : List Nat → SnifferState × List Emitted
  | [] => (s, [])
  | b :: rest =>
      let (s1, e) := process_byte s b
      let (s2, es) := run s1 rest
      (s2, e.toList ++ es)

end Sniffer

end MSTP

namespace MSTP

set_option maxRecDepth 100000

/-! ### Arithmetic and list helpers -/

theorem and_255_eq_mod (x : Nat) : x &&& 255 = x % 256 := by
  have h : (255 : Nat) = 2 ^ 8 - 1 := by norm_num
  rw [h, Nat.and_pow_two_sub_one_eq_mod]

theorem and_65535_eq_mod (x : Nat) : x &&& 65535 = x % 65536 := by
  have h : (65535 : Nat) = 2 ^ 16 - 1 := by norm_num
  rw [h, Nat.and_pow_two_sub_one_eq_mod]

theorem shiftRight8_eq_div (x : Nat) : x >>> 8 = x / 256 := by
  rw [Nat.shiftRight_eq_div_pow]

theorem lor_shift8 (a b : Nat) (hb : b < 256) : (a <<< 8) ||| b = 256 * a + b := by
  have h1 : a <<< 8 = 2 ^ 8 * a := by rw [Nat.shiftLeft_eq]; ring
  have hb' : b < 2 ^ 8 := by omega
  rw [h1, ← Nat.mul_add_lt_is_or hb' a]

/-- Splitting a 16-bit value into the wire's high/low bytes and recombining
them (as `parse_frame` does for the length field) is the identity. -/
theorem hiLo (n : Nat) (h : n < 65536) :
    ((n >>> 8) &&& 0xFF) <<< 8 ||| (n &&& 0xFF) = n := by
  show ((n >>> 8) &&& 255) <<< 8 ||| (n &&& 255) = n
  rw [and_255_eq_mod, and_255_eq_mod, shiftRight8_eq_div]
  have h1 : n / 256 % 256 = n / 256 := Nat.mod_eq_of_lt (by omega)
  rw [h1, lor_shift8 _ _ (Nat.mod_lt _ (by norm_num))]
  omega

/-- Recombining the little-endian data-CRC bytes (as `parse_frame` does
against `struct.pack('<H', crc)`) is the identity. -/
theorem loHi (c : Nat) (h : c < 65536) :
    (c &&& 0xFF) ||| (((c >>> 8) &&& 0xFF) <<< 8) = c := by
  rw [Nat.lor_comm]
  exact hiLo c h

theorem xor_lt_256 {x y : Nat} (hx : x < 256) (hy : y < 256) : x ^^^ y < 256 := by
  have h : (256 : Nat) = 2 ^ 8 := by norm_num
  rw [h] at hx hy ⊢
  exact Nat.xor_lt_two_pow hx hy

theorem xor_lt_65536 {x y : Nat} (hx : x < 65536) (hy : y < 65536) :
    x ^^^ y < 65536 := by
  have h : (65536 : Nat) = 2 ^ 16 := by norm_num
  rw [h] at hx hy ⊢
  exact Nat.xor_lt_two_pow hx hy

/-! ### CRC-8 register bounds and family relations -/

theorem crc8_round_lt {c : Nat} (hc : c < 256) : Sender.crc8_round c < 256 := by
  unfold Sender.crc8_round
  split
  · exact xor_lt_256 (by omega) (by norm_num)
  · omega

theorem crc8_update_lt {c b : Nat} (hc : c < 256) (hb : b < 256) :
    Sender.crc8_update c b < 256 := by
  unfold Sender.crc8_update iter8
  exact crc8_round_lt (crc8_round_lt (crc8_round_lt (crc8_round_lt
    (crc8_round_lt (crc8_round_lt (crc8_round_lt (crc8_round_lt
      (xor_lt_256 hc hb))))))))

theorem crc8_foldl_lt {d : List Nat} (hd : ∀ b ∈ d, b < 256) {c : Nat}
    (hc : c < 256) : d.foldl Sender.crc8_update c < 256 := by
  induction d generalizing c with
  | nil => simpa using hc
  | cons b t ih =>
    simp only [List.foldl_cons]
    exact ih (fun x hx => hd x (List.mem_cons_of_mem _ hx))
      (crc8_update_lt hc (hd b (List.mem_cons_self b t)))

theorem xor_255_eq_sub {c : Nat} (hc : c < 256) : c ^^^ 255 = 255 - c := by
  have h : ∀ x < 256, x ^^^ 255 = 255 - x := by decide
  exact h c hc

/-- The simulator's per-byte cascade update and the crc_test "rust style"
update agree on all inputs: the 0xFFFF mask in the simulator is inert because
the cascaded value of a masked byte is below 2^16. -/
theorem sim_update_eq_rust : Sim.crc8_update = CrcTest.rust_update := by
  funext c b
  unfold Sim.crc8_update CrcTest.rust_update
  have htemp : (c ^^^ b) &&& 0xFF < 256 := by
    have := Nat.and_le_right (n := c ^^^ b) (m := 0xFF)
    omega
  set t := (c ^^^ b) &&& 0xFF with ht
  have hshift : ∀ k, k ≤ 7 → t <<< k < 65536 := by
    intro k hk
    rw [Nat.shiftLeft_eq]
    have h2 : (2 : Nat) ^ k ≤ 2 ^ 7 := Nat.pow_le_pow_right (by norm_num) hk
    have := Nat.mul_le_mul (Nat.le_of_lt_succ htemp) h2
    omega
  have hcas : t ^^^ t <<< 1 ^^^ t <<< 2 ^^^ t <<< 3 ^^^ t <<< 4 ^^^ t <<< 5 ^^^
      t <<< 6 ^^^ t <<< 7 < 65536 := by
    refine xor_lt_65536 (xor_lt_65536 (xor_lt_65536 (xor_lt_65536 (xor_lt_65536
      (xor_lt_65536 (xor_lt_65536 ?_ ?_) ?_) ?_) ?_) ?_) ?_) ?_
    · omega
    all_goals exact hshift _ (by norm_num)
  have hmask : (t ^^^ t <<< 1 ^^^ t <<< 2 ^^^ t <<< 3 ^^^ t <<< 4 ^^^ t <<< 5 ^^^
      t <<< 6 ^^^ t <<< 7) &&& 0xFFFF =
      t ^^^ t <<< 1 ^^^ t <<< 2 ^^^ t <<< 3 ^^^ t <<< 4 ^^^ t <<< 5 ^^^
      t <<< 6 ^^^ t <<< 7 := by
    rw [and_65535_eq_mod]
    exact Nat.mod_eq_of_lt hcas
  simp only [hmask]

/-! ### The next-station computation vs. the spec formula -/

theorem find_sorted_min {l : List Nat} (hs : l.Sorted (· ≤ ·)) {mac m : Nat}
    (hf : l.find? (fun x => decide (mac < x)) = some m) :
    ∀ x ∈ l, mac < x → m ≤ x := by
  induction l with
  | nil => simp at hf
  | cons a t ih =>
    by_cases ha : mac < a
    · rw [List.find?_cons_of_pos _ (by simpa using ha)] at hf
      obtain rfl : a = m := by simpa using hf
      intro x hx _
      rcases List.mem_cons.mp hx with rfl | hx
      · exact le_refl x
      · exact (List.sorted_cons.mp hs).1 x hx
    · rw [List.find?_cons_of_neg _ (by simpa using ha)] at hf
      intro x hx hmx
      rcases List.mem_cons.mp hx with rfl | hx
      · omega
      · exact ih (List.sorted_cons.mp hs).2 hf x hx hmx

/-- `_update_next_station` computes exactly the §3 invariant's formula. -/
theorem update_next_station_eq (mac : Nat) (km : Finset Nat) :
    Sim.update_next_station mac km = Sim.nextStationSpec mac km := by
  unfold Sim.update_next_station Sim.nextStationSpec
  by_cases hkm : km = ∅
  · subst hkm
    simp
  · rw [if_neg hkm]
    have hne : km.Nonempty := Finset.nonempty_iff_ne_empty.mpr hkm
    have hsorted : (km.sort (· ≤ ·)).Sorted (· ≤ ·) := Finset.sort_sorted _ _
    cases hfind : (km.sort (· ≤ ·)).find? (fun m => decide (mac < m)) with
    | some m =>
      simp only [hfind]
      have hpm : mac < m := by simpa using List.find?_some hfind
      have hm_km : m ∈ km := (Finset.mem_sort _).mp (List.mem_of_find?_eq_some hfind)
      have h2 : (km.filter (fun x => mac < x)).Nonempty :=
        ⟨m, Finset.mem_filter.mpr ⟨hm_km, hpm⟩⟩
      rw [dif_pos h2]
      have hmin_mem := Finset.min'_mem _ h2
      obtain ⟨hmink, hminlt⟩ := Finset.mem_filter.mp hmin_mem
      have h3 : m ≤ (km.filter (fun x => mac < x)).min' h2 :=
        find_sorted_min hsorted hfind _ ((Finset.mem_sort _).mpr hmink) hminlt
      have h4 : (km.filter (fun x => mac < x)).min' h2 ≤ m :=
        Finset.min'_le _ _ (Finset.mem_filter.mpr ⟨hm_km, hpm⟩)
      exact congrArg some (le_antisymm h4 h3).symm
    | none =>
      simp only [hfind]
      have hnof : ∀ x ∈ km.sort (· ≤ ·), ¬ (mac < x) := by
        intro x hx
        have := List.find?_eq_none.mp hfind x hx
        simpa using this
      have h2 : ¬ (km.filter (fun x => mac < x)).Nonempty := by
        rintro ⟨x, hx⟩
        obtain ⟨hxk, hmx⟩ := Finset.mem_filter.mp hx
        exact hnof x ((Finset.mem_sort _).mpr hxk) hmx
      rw [dif_neg h2, dif_pos hne]
      have hlne : km.sort (· ≤ ·) ≠ [] := by
        intro h0
        have hlen : (km.sort (· ≤ ·)).length = km.card := Finset.length_sort _
        rw [h0] at hlen
        have := Finset.card_pos.mpr hne
        simp at hlen
        omega
      obtain ⟨a, t, hat⟩ := List.exists_cons_of_ne_nil hlne
      rw [hat]
      have ha_km : a ∈ km := (Finset.mem_sort _).mp (by rw [hat]; exact List.mem_cons_self a t)
      have hmin_km : km.min' hne ∈ km := Finset.min'_mem _ _
      have h5 : a ≤ km.min' hne := by
        have hminl : km.min' hne ∈ km.sort (· ≤ ·) := (Finset.mem_sort _).mpr hmin_km
        rw [hat] at hminl
        rcases List.mem_cons.mp hminl with heq | hmem
        · omega
        · have := List.sorted_cons.mp (by rw [hat] at hsorted; exact hsorted)
          exact this.1 _ hmem
      have h6 : km.min' hne ≤ a := Finset.min'_le _ _ ha_km
      simp [List.head?]
      omega

theorem nextStationSpec_eq_none_iff (mac : Nat) (km : Finset Nat) :
    Sim.nextStationSpec mac km = none ↔ km = ∅ := by
  unfold Sim.nextStationSpec
  by_cases h1 : (km.filter (fun m => mac < m)).Nonempty
  · rw [dif_pos h1]
    constructor
    · intro h; exact absurd h (by simp)
    · intro h; subst h; simp at h1
  · rw [dif_neg h1]
    by_cases h2 : km.Nonempty
    · rw [dif_pos h2]
      constructor
      · intro h; exact absurd h (by simp)
      · intro h; subst h; simp at h2
    · rw [dif_neg h2]
      simp [Finset.not_nonempty_iff_eq_empty.mp h2]

theorem nextStationSpec_empty (mac : Nat) : Sim.nextStationSpec mac ∅ = none := by
  unfold Sim.nextStationSpec
  simp

/-! ### Invariant preservation through the master-station handlers -/

theorem discover_master_next (s : Sim.SimState) (m : Nat)
    (h : s.next_station = Sim.nextStationSpec s.mac s.known_masters) :
    (Sim.discover_master s m).next_station =
      Sim.nextStationSpec (Sim.discover_master s m).mac
        (Sim.discover_master s m).known_masters
    ∧ (Sim.discover_master s m).mac = s.mac := by
  unfold Sim.discover_master
  split
  · exact ⟨by simp [update_next_station_eq], rfl⟩
  · exact ⟨h, rfl⟩

theorem discoverPhase_next (s : Sim.SimState) (f : Frame)
    (h : s.next_station = Sim.nextStationSpec s.mac s.known_masters) :
    (Sim.discoverPhase s f).next_station =
      Sim.nextStationSpec (Sim.discoverPhase s f).mac
        (Sim.discoverPhase s f).known_masters
    ∧ (Sim.discoverPhase s f).mac = s.mac := by
  unfold Sim.discoverPhase
  obtain ⟨h1, h2⟩ := discover_master_next s f.src h
  split
  · obtain ⟨h3, h4⟩ := discover_master_next _ f.dest h1
    exact ⟨h3, by rw [h4, h2]⟩
  · split
    · obtain ⟨h3, h4⟩ := discover_master_next _ f.src h1
      exact ⟨h3, by rw [h4, h2]⟩
    · exact ⟨h1, h2⟩

theorem use_token_next_station (s : Sim.SimState) :
    (Sim.handle_use_token s).1.next_station = s.next_station := by
  unfold Sim.handle_use_token Sim.send_frame
  cases h : s.next_station <;> simp [h]

theorem use_token_known (s : Sim.SimState) :
    (Sim.handle_use_token s).1.known_masters = s.known_masters := by
  unfold Sim.handle_use_token Sim.send_frame
  cases h : s.next_station <;> simp [h]

theorem use_token_mac (s : Sim.SimState) :
    (Sim.handle_use_token s).1.mac = s.mac := by
  unfold Sim.handle_use_token Sim.send_frame
  cases h : s.next_station <;> simp [h]

theorem handle_frame_next (s : Sim.SimState) (f : Frame)
    (h : s.next_station = Sim.nextStationSpec s.mac s.known_masters) :
    (Sim.handle_frame s f).1.next_station =
      Sim.nextStationSpec (Sim.handle_frame s f).1.mac
        (Sim.handle_frame s f).1.known_masters := by
  obtain ⟨h1, _⟩ := discoverPhase_next s f h
  simp only [Sim.handle_frame]
  split
  · exact h1
  · split
    · rw [use_token_next_station, use_token_known, use_token_mac]
      exact h1
    · split
      · simp only [Sim.send_frame]
        exact h1
      · split
        · exact h1
        · split
          · exact h1
          · split
            · simp only [Sim.send_frame]
              exact h1
            · exact h1

theorem discover_master_mac (s : Sim.SimState) (m : Nat) :
    (Sim.discover_master s m).mac = s.mac ∧
    (Sim.discover_master s m).max_master = s.max_master := by
  unfold Sim.discover_master
  split <;> exact ⟨rfl, rfl⟩

theorem discoverPhase_mac (s : Sim.SimState) (f : Frame) :
    (Sim.discoverPhase s f).mac = s.mac ∧
    (Sim.discoverPhase s f).max_master = s.max_master := by
  unfold Sim.discoverPhase
  obtain ⟨h1, h2⟩ := discover_master_mac s f.src
  split
  · obtain ⟨h3, h4⟩ := discover_master_mac (Sim.discover_master s f.src) f.dest
    exact ⟨by rw [h3, h1], by rw [h4, h2]⟩
  · split
    · obtain ⟨h3, h4⟩ := discover_master_mac (Sim.discover_master s f.src) f.src
      exact ⟨by rw [h3, h1], by rw [h4, h2]⟩
    · exact ⟨h1, h2⟩

/-! ### Behaviour of parse_frame on well-formed and corrupted buffers -/

theorem findPreamble_cons55FF (rest : List Nat) :
    Sim.findPreamble (0x55 :: 0xFF :: rest) = some 0 := by
  simp [Sim.findPreamble]

theorem getD_eight (a0 a1 a2 a3 a4 a5 a6 a7 : Nat) (l : List Nat) (n : Nat) :
    (a0 :: a1 :: a2 :: a3 :: a4 :: a5 :: a6 :: a7 :: l).getD (8 + n) 0 =
      l.getD n 0 := by
  have h : (a0 :: a1 :: a2 :: a3 :: a4 :: a5 :: a6 :: a7 :: l) =
      [a0, a1, a2, a3, a4, a5, a6, a7] ++ l := rfl
  rw [h, List.getD_append_right]
  · congr 1
    simp
  · simp

theorem parse_frame_header_only (ft dest src : Nat) :
    Sim.parse_frame [0x55, 0xFF, ft, dest, src, 0, 0,
      Sim.crc8_header [ft, dest, src, 0, 0]] =
      (some ⟨ft, dest, src, none⟩, []) := by
  unfold Sim.parse_frame
  simp [Sim.findPreamble, List.getD]

/-- What `parse_frame` does on a buffer that is exactly one well-formed frame
with a non-empty payload, except that the two data-CRC bytes are arbitrary:
if they do not match the payload's CRC, no frame is returned and exactly the
two preamble bytes are discarded; if they match, the frame is returned and
fully consumed. -/
theorem parse_frame_data_generic (ft dest src c1 c2 : Nat) (d : List Nat)
    (hd : d ≠ []) (hlen : d.length ≤ 65535) :
    Sim.parse_frame ([0x55, 0xFF, ft, dest, src, (d.length >>> 8) &&& 0xFF,
        d.length &&& 0xFF,
        Sim.crc8_header [ft, dest, src, (d.length >>> 8) &&& 0xFF,
          d.length &&& 0xFF]] ++ (d ++ [c1, c2])) =
      (if Sim.crc16_data d ≠ (c1 ||| (c2 <<< 8)) then
        ((none : Option Frame), [ft, dest, src, (d.length >>> 8) &&& 0xFF,
          d.length &&& 0xFF,
          Sim.crc8_header [ft, dest, src, (d.length >>> 8) &&& 0xFF,
            d.length &&& 0xFF]] ++ (d ++ [c1, c2]))
      else (some ⟨ft, dest, src, some d⟩, [])) := by
  have hn : d.length < 65536 := by omega
  have hpos : 0 < d.length := List.length_pos.mpr hd
  set hi := (d.length >>> 8) &&& 0xFF with hhi
  set lo := d.length &&& 0xFF with hlo
  set hc := Sim.crc8_header [ft, dest, src, hi, lo] with hhc
  set rest := d ++ [c1, c2] with hrest
  have hdl : (hi <<< 8) ||| lo = d.length := hiLo _ hn
  have hrestlen : rest.length = d.length + 2 := by
    rw [hrest]; simp
  unfold Sim.parse_frame
  simp only [List.cons_append, List.nil_append]
  rw [if_neg (by simp [hrestlen])]
  rw [findPreamble_cons55FF]
  dsimp only
  rw [List.drop_zero]
  rw [if_neg (by simp [hrestlen])]
  have e1 : List.take 5 (List.drop 2
      (85 :: 255 :: ft :: dest :: src :: hi :: lo :: hc :: rest)) =
      [ft, dest, src, hi, lo] := rfl
  have e2 : (85 :: 255 :: ft :: dest :: src :: hi :: lo :: hc :: rest).getD 2 0 = ft := rfl
  have e3 : (85 :: 255 :: ft :: dest :: src :: hi :: lo :: hc :: rest).getD 3 0 = dest := rfl
  have e4 : (85 :: 255 :: ft :: dest :: src :: hi :: lo :: hc :: rest).getD 4 0 = src := rfl
  have e5 : (85 :: 255 :: ft :: dest :: src :: hi :: lo :: hc :: rest).getD 5 0 = hi := rfl
  have e6 : (85 :: 255 :: ft :: dest :: src :: hi :: lo :: hc :: rest).getD 6 0 = lo := rfl
  have e7 : (85 :: 255 :: ft :: dest :: src :: hi :: lo :: hc :: rest).getD 7 0 = hc := rfl
  rw [e1, e2, e3, e4, e5, e6, e7, hdl]
  rw [if_neg (by simp [hhc])]
  simp only [if_pos hpos]
  rw [if_neg (by simp [hrestlen]; omega)]
  have e8 : List.drop 8 (85 :: 255 :: ft :: dest :: src :: hi :: lo :: hc :: rest) = rest := rfl
  have e9 : List.take d.length (d ++ [c1, c2]) = d := List.take_left' rfl
  have e10 : (d ++ [c1, c2]).getD d.length 0 = c1 := by
    rw [List.getD_append_right _ _ _ _ (le_refl _)]
    simp
  have e11 : (d ++ [c1, c2]).getD (d.length + 1) 0 = c2 := by
    rw [List.getD_append_right _ _ _ _ (by omega)]
    simp
  have e12 : List.drop (8 + d.length + 2)
      (85 :: 255 :: ft :: dest :: src :: hi :: lo :: hc :: (d ++ [c1, c2])) = [] := by
    apply List.drop_eq_nil_of_le
    simp
    omega
  have e13 : List.drop 2
      (85 :: 255 :: ft :: dest :: src :: hi :: lo :: hc :: (d ++ [c1, c2])) =
      ft :: dest :: src :: hi :: lo :: hc :: (d ++ [c1, c2]) := rfl
  rw [e8, hrest, e9, getD_eight, e10,
    show 8 + d.length + 1 = 8 + (d.length + 1) from by omega, getD_eight, e11,
    e12, e13]

theorem crc16_data_lt (d : List Nat) : Sim.crc16_data d < 65536 := by
  unfold Sim.crc16_data
  omega

/-- On a header whose CRC byte does not match, `parse_frame` reports nothing
and discards exactly the two preamble bytes, keeping the rest. -/
theorem parse_frame_bad_header (ft dest src hi lo hcrc : Nat) (rest : List Nat)
    (hbad : Sim.crc8_header [ft, dest, src, hi, lo] ≠ hcrc) :
    Sim.parse_frame ([0x55, 0xFF, ft, dest, src, hi, lo, hcrc] ++ rest) =
      (none, [ft, dest, src, hi, lo, hcrc] ++ rest) := by
  unfold Sim.parse_frame
  simp only [List.cons_append, List.nil_append]
  rw [if_neg (by simp)]
  rw [findPreamble_cons55FF]
  dsimp only
  rw [List.drop_zero]
  rw [if_neg (by simp)]
  have e1 : List.take 5 (List.drop 2
      (85 :: 255 :: ft :: dest :: src :: hi :: lo :: hcrc :: rest)) =
      [ft, dest, src, hi, lo] := rfl
  have e7 : (85 :: 255 :: ft :: dest :: src :: hi :: lo :: hcrc :: rest).getD 7 0
      = hcrc := rfl
  rw [e1, e7, if_pos hbad]
  rfl

/-- Whenever `parse_frame` does deliver a frame, the recomputed header CRC at
the preamble it synchronised on matched the received CRC byte. -/
theorem parse_frame_sound (buf : List Nat) (f : Frame) (buf' : List Nat)
    (h : Sim.parse_frame buf = (some f, buf')) :
    ∃ p, Sim.findPreamble buf = some p ∧
      Sim.crc8_header (((buf.drop p).drop 2).take 5) = (buf.drop p).getD 7 0 := by
  unfold Sim.parse_frame at h
  by_cases h8 : buf.length < 8
  · rw [if_pos h8] at h
    simp at h
  rw [if_neg h8] at h
  cases hfp : Sim.findPreamble buf with
  | none =>
    rw [hfp] at h
    simp at h
  | some p =>
    rw [hfp] at h
    dsimp only at h
    refine ⟨p, rfl, ?_⟩
    by_cases h8' : (buf.drop p).length < 8
    · rw [if_pos h8'] at h
      simp at h
    rw [if_neg h8'] at h
    by_cases hcrc : Sim.crc8_header (((buf.drop p).drop 2).take 5) ≠
        (buf.drop p).getD 7 0
    · rw [if_pos hcrc] at h
      simp at h
    · exact not_not.mp hcrc

/-! ### Behaviour of the sniffer state machine -/

theorem run_append (s : Sniffer.SnifferState) (a b : List Nat) :
    Sniffer.run s (a ++ b) =
      ((Sniffer.run (Sniffer.run s a).1 b).1,
        (Sniffer.run s a).2 ++ (Sniffer.run (Sniffer.run s a).1 b).2) := by
  induction a generalizing s with
  | nil => simp [Sniffer.run]
  | cons x t ih =>
    simp only [List.cons_append, Sniffer.run, List.append_eq]
    rw [ih]
    simp

theorem process_byte_data_mid (s : Sniffer.SnifferState) (b : Nat)
    (hmode : s.mode = Sniffer.Mode.DATA)
    (hne : s.data.length + 1 ≠ s.data_len + 2) :
    Sniffer.process_byte s b =
      ({ s with buffer := s.buffer ++ [b], data := s.data ++ [b] }, none) := by
  unfold Sniffer.process_byte
  dsimp only
  rw [hmode]
  dsimp only
  rw [if_neg (by simpa using hne)]

theorem run_data_fill (xs : List Nat) (s : Sniffer.SnifferState)
    (hmode : s.mode = Sniffer.Mode.DATA)
    (hlt : s.data.length + xs.length < s.data_len + 2) :
    Sniffer.run s xs =
      ({ s with buffer := s.buffer ++ xs, data := s.data ++ xs }, []) := by
  induction xs generalizing s with
  | nil => simp [Sniffer.run]
  | cons x t ih =>
    have hstep := process_byte_data_mid s x hmode
      (by simp at hlt; omega)
    simp only [Sniffer.run, hstep]
    rw [ih { s with buffer := s.buffer ++ [x], data := s.data ++ [x] }
      (by simpa using hmode)
      (by simp at hlt ⊢; omega)]
    simp

/-- Feeding the sniffer one complete data frame whose header CRC is correct
emits exactly one frame carrying the payload, regardless of the two data-CRC
bytes `c1 c2`: a data-CRC mismatch changes nothing in the emitted value. -/
theorem sniffer_run_frame (ft dest src c1 c2 : Nat) (d : List Nat)
    (hd : d ≠ []) (hlen : d.length ≤ 65535) :
    (Sniffer.run Sniffer.initSniffer
      (0x55 :: 0xFF :: ft :: dest :: src :: ((d.length >>> 8) &&& 0xFF) ::
        (d.length &&& 0xFF) ::
        Sniffer.crc8 [ft, dest, src, (d.length >>> 8) &&& 0xFF,
          d.length &&& 0xFF] :: (d ++ [c1, c2]))).2 =
      [⟨1, ft, dest, src, d.length, d⟩] := by
  have hn : d.length < 65536 := by omega
  have hpos : 0 < d.length := List.length_pos.mpr hd
  have hdl : ((d.length >>> 8) &&& 0xFF) <<< 8 ||| (d.length &&& 0xFF) =
      d.length := hiLo _ hn
  set hi := (d.length >>> 8) &&& 0xFF with hhi
  set lo := d.length &&& 0xFF with hlo
  set hc := Sniffer.crc8 [ft, dest, src, hi, lo] with hhc
  have h8 : Sniffer.run Sniffer.initSniffer
      [0x55, 0xFF, ft, dest, src, hi, lo, hc] =
      (⟨Sniffer.Mode.DATA, [0x55, 0xFF, ft, dest, src, hi, lo, hc],
        ft, dest, src, d.length, hc, [], 0, 0⟩, []) := by
    simp [Sniffer.run, Sniffer.process_byte, Sniffer.initSniffer, List.getD,
      hdl, hpos]
  show (Sniffer.run Sniffer.initSniffer
      ([0x55, 0xFF, ft, dest, src, hi, lo, hc] ++ (d ++ [c1, c2]))).2 = _
  rw [run_append, h8]
  dsimp only
  rw [run_append]
  rw [run_data_fill d _ rfl (by simp)]
  dsimp only
  simp only [Sniffer.run]
  rw [process_byte_data_mid _ c1 rfl (by simp)]
  dsimp only
  have htake : (d ++ [c1, c2]).take d.length = d := List.take_left' rfl
  simp [Sniffer.process_byte, Sniffer.complete_frame, htake]

/-! ### Claim theorems -/

/-- Claim C1 counterexample: a concrete received frame whose 8-byte header
validates against the header CRC-8 (0xAF) but whose payload fails the data
CRC-16 check (received bytes A0 EB instead of A1 EB) is NOT emitted by
`MstpSimulator.parse_frame`: the parse reports no frame and drops the
preamble, contradicting the claim that such frames are still emitted with a
"data CRC invalid" flag. -/
theorem data_crc_invalid_frame_dropped :
    Sim.crc8_header [0x06, 0x01, 0x02, 0x00, 0x01] = 0xAF
    ∧ Sim.crc16_data [0xAB] ≠ 0xA0 ||| (0xEB <<< 8)
    ∧ Sim.parse_frame [0x55, 0xFF, 0x06, 0x01, 0x02, 0x00, 0x01, 0xAF,
        0xAB, 0xA0, 0xEB] =
      (none, [0x06, 0x01, 0x02, 0x00, 0x01, 0xAF, 0xAB, 0xA0, 0xEB]) :=
  ⟨by decide, by decide, by decide⟩

/-- Claim C1 (amended): on a data-CRC mismatch the simulator's Framer emits
no frame at all — it discards the two preamble bytes and resumes seeking —
while the sniffer's Framer emits the frame with the same contents a valid
frame would have, with no flag of any kind: the emitted value does not depend
on the received data-CRC bytes. -/
theorem data_crc_error_handling :
    (∀ (ft dest src b1 b2 : Nat) (d : List Nat), d ≠ [] → d.length ≤ 65535 →
      Sim.crc16_data d ≠ (b1 ||| (b2 <<< 8)) →
      Sim.parse_frame ([0x55, 0xFF, ft, dest, src, (d.length >>> 8) &&& 0xFF,
          d.length &&& 0xFF, Sim.crc8_header [ft, dest, src,
            (d.length >>> 8) &&& 0xFF, d.length &&& 0xFF]] ++ (d ++ [b1, b2]))
        = (none, [ft, dest, src, (d.length >>> 8) &&& 0xFF, d.length &&& 0xFF,
            Sim.crc8_header [ft, dest, src, (d.length >>> 8) &&& 0xFF,
              d.length &&& 0xFF]] ++ (d ++ [b1, b2])))
    ∧ (∀ (ft dest src b1 b2 : Nat) (d : List Nat), d ≠ [] → d.length ≤ 65535 →
      (Sniffer.run Sniffer.initSniffer (0x55 :: 0xFF :: ft :: dest :: src ::
          ((d.length >>> 8) &&& 0xFF) :: (d.length &&& 0xFF) ::
          Sniffer.crc8 [ft, dest, src, (d.length >>> 8) &&& 0xFF,
            d.length &&& 0xFF] :: (d ++ [b1, b2]))).2 =
        [⟨1, ft, dest, src, d.length, d⟩]) := by
  constructor
  · intro ft dest src b1 b2 d hd hlen hcrc
    rw [parse_frame_data_generic ft dest src b1 b2 d hd hlen, if_pos hcrc]
  · intro ft dest src b1 b2 d hd hlen
    exact sniffer_run_frame ft dest src b1 b2 d hd hlen

theorem data_crc_error_handling_witness :
    Sim.parse_frame ([0x55, 0xFF, 6, 1, 2, 0, 1,
        Sim.crc8_header [6, 1, 2, 0, 1]] ++ ([0xAB] ++ [0xA0, 0xEB])) =
      (none, [6, 1, 2, 0, 1, Sim.crc8_header [6, 1, 2, 0, 1]] ++
        ([0xAB] ++ [0xA0, 0xEB]))
    ∧ (Sniffer.run Sniffer.initSniffer (0x55 :: 0xFF :: 6 :: 1 :: 2 :: 0 :: 1 ::
        Sniffer.crc8 [6, 1, 2, 0, 1] :: ([0xAB] ++ [0xA0, 0xEB]))).2 =
      [⟨1, 6, 1, 2, 1, [0xAB]⟩] := by
  constructor
  · exact data_crc_error_handling.1 6 1 2 0xA0 0xEB [0xAB]
      (by decide) (by decide) (by decide)
  · exact data_crc_error_handling.2 6 1 2 0xA0 0xEB [0xAB]
      (by decide) (by decide)

/-- Claim C2 counterexample: on a header-CRC mismatch (received 0x51, computed
0x62) the simulator's Framer discards exactly the two preamble bytes — the
retained buffer still starts with the byte that followed the preamble — not
"the preamble and the following byte" as claimed. -/
theorem header_crc_discard_two_bytes :
    Sim.parse_frame [0x55, 0xFF, 0x00, 0x06, 0x03, 0x00, 0x00, 0x51] =
      (none, [0x00, 0x06, 0x03, 0x00, 0x00, 0x51])
    ∧ ([0x00, 0x06, 0x03, 0x00, 0x00, 0x51] : List Nat) ≠
      [0x06, 0x03, 0x00, 0x00, 0x51] :=
  ⟨by decide, by decide⟩

/-- Claim C2 (amended): on a header-CRC mismatch the Framer emits no frame,
discards exactly the two preamble bytes, and resumes seeking; and no frame is
ever delivered with an invalid header CRC — any delivered frame's recomputed
header CRC equals the received CRC byte at the preamble it synchronised on. -/
theorem header_crc_error_handling :
    (∀ (ft dest src hi lo hcrc : Nat) (rest : List Nat),
      Sim.crc8_header [ft, dest, src, hi, lo] ≠ hcrc →
      Sim.parse_frame ([0x55, 0xFF, ft, dest, src, hi, lo, hcrc] ++ rest) =
        (none, [ft, dest, src, hi, lo, hcrc] ++ rest))
    ∧ ∀ (buf : List Nat) (f : Frame) (buf' : List Nat),
      Sim.parse_frame buf = (some f, buf') →
      ∃ p, Sim.findPreamble buf = some p ∧
        Sim.crc8_header (((buf.drop p).drop 2).take 5) =
          (buf.drop p).getD 7 0 :=
  ⟨parse_frame_bad_header, parse_frame_sound⟩

theorem header_crc_error_handling_witness :
    Sim.parse_frame ([0x55, 0xFF, 0, 6, 3, 0, 0, 0x51] ++ []) =
      (none, [0, 6, 3, 0, 0, 0x51] ++ [])
    ∧ ∃ p, Sim.findPreamble [0x55, 0xFF, 0, 6, 3, 0, 0, 0x62] = some p ∧
        Sim.crc8_header ((([0x55, 0xFF, 0, 6, 3, 0, 0, 0x62].drop p).drop 2).take 5) =
          ([0x55, 0xFF, 0, 6, 3, 0, 0, 0x62].drop p).getD 7 0 := by
  constructor
  · exact header_crc_error_handling.1 0 6 3 0 0 0x51 [] (by decide)
  · exact header_crc_error_handling.2 [0x55, 0xFF, 0, 6, 3, 0, 0, 0x62]
      ⟨0, 6, 3, none⟩ [] (by decide)

/-- Claim C3: after every master-station operation (any sequence of processed
frames from the initial state), `next_station` equals the smallest address in
`known_masters` strictly greater than `own_address`, or, failing that, the
smallest address overall (the `nextStationSpec` formula); and `next_station`
is `None` iff `known_masters` is empty. -/
theorem next_station_invariant (mac max_master : Nat) (fs : List Frame) :
    (fs.foldl (fun s f => (Sim.handle_frame s f).1)
        (Sim.initSim mac max_master)).next_station =
      Sim.nextStationSpec
        (fs.foldl (fun s f => (Sim.handle_frame s f).1)
          (Sim.initSim mac max_master)).mac
        (fs.foldl (fun s f => (Sim.handle_frame s f).1)
          (Sim.initSim mac max_master)).known_masters
    ∧ ((fs.foldl (fun s f => (Sim.handle_frame s f).1)
        (Sim.initSim mac max_master)).next_station = none ↔
      (fs.foldl (fun s f => (Sim.handle_frame s f).1)
        (Sim.initSim mac max_master)).known_masters = ∅) := by
  have main : ∀ (l : List Frame) (s : Sim.SimState),
      s.next_station = Sim.nextStationSpec s.mac s.known_masters →
      (l.foldl (fun s f => (Sim.handle_frame s f).1) s).next_station =
        Sim.nextStationSpec
          (l.foldl (fun s f => (Sim.handle_frame s f).1) s).mac
          (l.foldl (fun s f => (Sim.handle_frame s f).1) s).known_masters := by
    intro l
    induction l with
    | nil => intro s h; simpa using h
    | cons f t ih =>
      intro s h
      simp only [List.foldl_cons]
      exact ih _ (handle_frame_next s f h)
  have h1 := main fs (Sim.initSim mac max_master)
    (by simp [Sim.initSim, nextStationSpec_empty])
  exact ⟨h1, by rw [h1, nextStationSpec_eq_none_iff]⟩

/-- Claim C4 counterexample: the bitwise 0x8C CRC-8 of the test sender and
the parallel XOR-cascade CRC-8 of the simulator disagree already on the
single byte 0x00 (0xCA versus 0xAA), so the two re-implementations are not
extensionally equal. -/
theorem crc8_implementations_differ :
    Sender.crc8_header [0x00] = 0xCA
    ∧ Sim.crc8_header [0x00] = 0xAA
    ∧ Sender.crc8_header [0x00] ≠ Sim.crc8_header [0x00] :=
  ⟨by decide, by decide, by decide⟩

/-- Claim C4 (amended): the repository's CRC-8 re-implementations split into
two families.  Within each family they are extensionally equal — the test
sender's bitwise loop equals crc_test's Python loop and (on byte sequences)
the sniffer's loop, and the simulator's cascade equals crc_test's rust-style
loop — but across families they are NOT equal: they differ on [0x00]. -/
theorem crc8_families :
    (∀ d : List Nat, Sender.crc8_header d = CrcTest.crc8_header_python d)
    ∧ (∀ d : List Nat, (∀ b ∈ d, b < 256) →
        Sniffer.crc8 d = Sender.crc8_header d)
    ∧ (∀ d : List Nat, Sim.crc8_header d = CrcTest.crc8_header_rust_style d)
    ∧ ¬ (∀ d : List Nat, Sender.crc8_header d = Sim.crc8_header d) := by
  refine ⟨fun _ => rfl, ?_, ?_, ?_⟩
  · intro d hd
    unfold Sniffer.crc8 Sender.crc8_header
    have hlt := crc8_foldl_lt hd (c := 0xFF) (by norm_num)
    rw [xor_255_eq_sub hlt, Nat.mod_eq_of_lt hlt]
  · intro d
    unfold Sim.crc8_header CrcTest.crc8_header_rust_style
    rw [sim_update_eq_rust]
  · intro h
    exact absurd (h [0]) (by decide)

theorem crc8_families_witness :
    Sniffer.crc8 [0x01, 0x03, 0x06, 0x00, 0x00] =
      Sender.crc8_header [0x01, 0x03, 0x06, 0x00, 0x00] :=
  crc8_families.2.1 [0x01, 0x03, 0x06, 0x00, 0x00] (by decide)

/-- Claim C5 counterexample: serializing an EMPTY payload and decoding it
does not reproduce the original tuple — `build_frame` emits the 8-byte
header-only frame and `parse_frame` returns the payload as absent (`none`),
which differs from the empty payload (`some []`) it was built from. -/
theorem empty_payload_roundtrip :
    Sim.parse_frame (Sim.build_frame 5 1 2 (some [])) =
      (some ⟨5, 1, 2, none⟩, [])
    ∧ (⟨5, 1, 2, none⟩ : Frame) ≠ ⟨5, 1, 2, some []⟩ :=
  ⟨by decide, by decide⟩

/-- Claim C5 (amended): for every frame type, destination, source and
NON-EMPTY payload of length at most 65535, serializing with `build_frame` and
feeding the bytes to `parse_frame` yields exactly the original frame with no
CRC error and an empty leftover buffer; an absent payload round-trips to an
absent payload likewise.  (An empty payload decodes as absent.) -/
theorem parse_build_roundtrip :
    (∀ (ft dest src : Nat) (d : List Nat), d ≠ [] → d.length ≤ 65535 →
      Sim.parse_frame (Sim.build_frame ft dest src (some d)) =
        (some ⟨ft, dest, src, some d⟩, []))
    ∧ ∀ ft dest src : Nat,
      Sim.parse_frame (Sim.build_frame ft dest src none) =
        (some ⟨ft, dest, src, none⟩, []) := by
  constructor
  · intro ft dest src d hd hlen
    have hb : Sim.build_frame ft dest src (some d) =
        [0x55, 0xFF, ft, dest, src, (d.length >>> 8) &&& 0xFF,
          d.length &&& 0xFF,
          Sim.crc8_header [ft, dest, src, (d.length >>> 8) &&& 0xFF,
            d.length &&& 0xFF]] ++
          (d ++ [Sim.crc16_data d &&& 0xFF,
            (Sim.crc16_data d >>> 8) &&& 0xFF]) := by
      unfold Sim.build_frame
      dsimp only
      rw [if_neg (by simpa using hd)]
      simp
    rw [hb, parse_frame_data_generic ft dest src _ _ d hd hlen,
      if_neg (by simp [loHi _ (crc16_data_lt d)])]
  · intro ft dest src
    exact parse_frame_header_only ft dest src

theorem parse_build_roundtrip_witness :
    Sim.parse_frame (Sim.build_frame 6 1 2 (some [0xAB])) =
      (some ⟨6, 1, 2, some [0xAB]⟩, [])
    ∧ Sim.parse_frame (Sim.build_frame 0 6 3 none) =
      (some ⟨0, 6, 3, none⟩, []) :=
  ⟨parse_build_roundtrip.1 6 1 2 [0xAB] (by decide) (by decide),
   parse_build_roundtrip.2 0 6 3⟩

/-- Claim C7: when a Token frame addressed to this station is processed, then
after the discovery step: if `next_station` is known the station sends
exactly one Token frame addressed to it and returns to IDLE; if unknown it
sends exactly one Poll-For-Master frame addressed to
`(own_address + 1) % (max_master + 1)`, waits the 50 ms usage-timeout window,
and returns to IDLE. -/
theorem token_usage (s : Sim.SimState) (src : Nat) (dta : Option (List Nat)) :
    (∀ ns : Nat,
      (Sim.discoverPhase s ⟨Sim.FRAME_TOKEN, s.mac, src, dta⟩).next_station =
        some ns →
      Sim.handle_frame s ⟨Sim.FRAME_TOKEN, s.mac, src, dta⟩ =
        ({ Sim.discoverPhase s ⟨Sim.FRAME_TOKEN, s.mac, src, dta⟩ with
            tokens_received := (Sim.discoverPhase s
              ⟨Sim.FRAME_TOKEN, s.mac, src, dta⟩).tokens_received + 1,
            mode := Sim.Mode.IDLE,
            token_count := (Sim.discoverPhase s
              ⟨Sim.FRAME_TOKEN, s.mac, src, dta⟩).token_count + 1,
            frame_count := 0,
            frames_sent := (Sim.discoverPhase s
              ⟨Sim.FRAME_TOKEN, s.mac, src, dta⟩).frames_sent + 1 },
          [Sim.Action.send (Sim.build_frame Sim.FRAME_TOKEN ns s.mac none)]))
    ∧ ((Sim.discoverPhase s ⟨Sim.FRAME_TOKEN, s.mac, src, dta⟩).next_station =
        none →
      Sim.handle_frame s ⟨Sim.FRAME_TOKEN, s.mac, src, dta⟩ =
        ({ Sim.discoverPhase s ⟨Sim.FRAME_TOKEN, s.mac, src, dta⟩ with
            tokens_received := (Sim.discoverPhase s
              ⟨Sim.FRAME_TOKEN, s.mac, src, dta⟩).tokens_received + 1,
            mode := Sim.Mode.IDLE,
            token_count := (Sim.discoverPhase s
              ⟨Sim.FRAME_TOKEN, s.mac, src, dta⟩).token_count + 1,
            frame_count := 0,
            frames_sent := (Sim.discoverPhase s
              ⟨Sim.FRAME_TOKEN, s.mac, src, dta⟩).frames_sent + 1 },
          [Sim.Action.send (Sim.build_frame Sim.FRAME_POLL_FOR_MASTER
              ((s.mac + 1) % (s.max_master + 1)) s.mac none),
           Sim.Action.sleep_us 50000])) := by
  obtain ⟨hmac, hmm⟩ := discoverPhase_mac s ⟨Sim.FRAME_TOKEN, s.mac, src, dta⟩
  constructor
  · intro ns hns
    unfold Sim.handle_frame
    rw [if_neg (by simp [hmac])]
    rw [if_pos rfl]
    unfold Sim.handle_use_token Sim.send_frame
    dsimp only
    rw [hns]
    dsimp only
    rw [hmac]
  · intro hns
    unfold Sim.handle_frame
    rw [if_neg (by simp [hmac])]
    rw [if_pos rfl]
    unfold Sim.handle_use_token Sim.send_frame
    dsimp only
    rw [hns]
    dsimp only
    rw [hmac, hmm]

theorem token_usage_witness :
    Sim.handle_frame ⟨3, 127, Sim.Mode.IDLE, 0, 0, {5}, some 5, 0, 0, 0, 0⟩
        ⟨Sim.FRAME_TOKEN, 3, 5, none⟩ =
      (⟨3, 127, Sim.Mode.IDLE, 1, 0, {5}, some 5, 1, 0, 0, 1⟩,
        [Sim.Action.send (Sim.build_frame Sim.FRAME_TOKEN 5 3 none)])
    ∧ Sim.handle_frame ⟨3, 127, Sim.Mode.IDLE, 0, 0, ∅, none, 0, 0, 0, 0⟩
        ⟨Sim.FRAME_TOKEN, 3, 3, none⟩ =
      (⟨3, 127, Sim.Mode.IDLE, 1, 0, ∅, none, 1, 0, 0, 1⟩,
        [Sim.Action.send (Sim.build_frame Sim.FRAME_POLL_FOR_MASTER 4 3 none),
         Sim.Action.sleep_us 50000]) := by
  constructor
  · exact (token_usage ⟨3, 127, Sim.Mode.IDLE, 0, 0, {5}, some 5, 0, 0, 0, 0⟩
      5 none).1 5 (by decide)
  · exact (token_usage ⟨3, 127, Sim.Mode.IDLE, 0, 0, ∅, none, 0, 0, 0, 0⟩
      3 none).2 (by decide)

/-- Claim C8: processing a single Token frame with destination 5 and source 2
at a master station with address 3 and empty `known_masters` results in
`known_masters = {2, 5}` and `next_station = 5`. -/
theorem token_discovery_example :
    (Sim.handle_frame (Sim.initSim 3 127)
        ⟨Sim.FRAME_TOKEN, 5, 2, none⟩).1.known_masters = {2, 5}
    ∧ (Sim.handle_frame (Sim.initSim 3 127)
        ⟨Sim.FRAME_TOKEN, 5, 2, none⟩).1.next_station = some 5 := by
  have h1 : (Sim.handle_frame (Sim.initSim 3 127)
      ⟨Sim.FRAME_TOKEN, 5, 2, none⟩).1.known_masters
      = insert 5 (insert 2 (∅ : Finset Nat)) := rfl
  have h2 : (Sim.handle_frame (Sim.initSim 3 127)
      ⟨Sim.FRAME_TOKEN, 5, 2, none⟩).1.next_station
      = Sim.update_next_station 3 (insert 5 (insert 2 (∅ : Finset Nat))) := rfl
  rw [h1, h2, update_next_station_eq]
  exact ⟨by decide, by decide⟩

/-- Claim C9 counterexample: the cited bitwise header-CRC implementation
applied to the header 00 06 03 00 00 returns 0xDB, not the 0x51 the spec
gives as the known vector. -/
theorem token_header_crc_not_0x51 :
    CrcTest.crc8_header_python [0x00, 0x06, 0x03, 0x00, 0x00] = 0xDB
    ∧ CrcTest.crc8_header_python [0x00, 0x06, 0x03, 0x00, 0x00] ≠ 0x51 :=
  ⟨by decide, by decide⟩

/-- Claim C9 (amended): on the header 00 06 03 00 00 the repository's bitwise
0x8C implementations (test sender, crc_test python, sniffer) return 0xDB and
the cascade implementations (simulator, crc_test rust-style) return 0x62;
no implementation returns 0x51. -/
theorem token_header_crc_values :
    Sender.crc8_header [0x00, 0x06, 0x03, 0x00, 0x00] = 0xDB
    ∧ CrcTest.crc8_header_python [0x00, 0x06, 0x03, 0x00, 0x00] = 0xDB
    ∧ Sniffer.crc8 [0x00, 0x06, 0x03, 0x00, 0x00] = 0xDB
    ∧ Sim.crc8_header [0x00, 0x06, 0x03, 0x00, 0x00] = 0x62
    ∧ CrcTest.crc8_header_rust_style [0x00, 0x06, 0x03, 0x00, 0x00] = 0x62 :=
  ⟨by decide, by decide, by decide, by decide, by decide⟩

/-- Claim C10: `build_mstp_frame` distinguishes an absent payload (exactly
the 8-byte frame) from an empty one (a 10-byte frame with length field 0 and
a trailing 2-byte data CRC computed over the empty payload), whereas the
simulator's `build_frame` treats both identically, returning 8 bytes. -/
theorem build_frame_none_vs_empty (ft dest src : Nat) :
    Sender.build_mstp_frame ft dest src none =
      [0x55, 0xFF, ft, dest, src, 0x00, 0x00,
        Sender.crc8_header [ft, dest, src, 0x00, 0x00]]
    ∧ Sender.build_mstp_frame ft dest src (some []) =
      [0x55, 0xFF, ft, dest, src, 0x00, 0x00,
        Sender.crc8_header [ft, dest, src, 0x00, 0x00],
        Sender.crc16_data [] &&& 0xFF, (Sender.crc16_data [] >>> 8) &&& 0xFF]
    ∧ (Sender.build_mstp_frame ft dest src none).length = 8
    ∧ (Sender.build_mstp_frame ft dest src (some [])).length = 10
    ∧ Sender.crc16_data [] = 0
    ∧ Sim.build_frame ft dest src none = Sim.build_frame ft dest src (some [])
    ∧ (Sim.build_frame ft dest src none).length = 8 := by
  refine ⟨rfl, ?_, rfl, rfl, by decide, rfl, rfl⟩
  unfold Sender.build_mstp_frame
  simp

end MSTP
namespace MSTP

set_option maxRecDepth 100000

theorem drop_append_le {X e : List Nat} {n : Nat} (h : n ≤ X.length) :
    (X ++ e).drop n = X.drop n ++ e := by
  conv_lhs => rw [← List.take_append_drop n X, List.append_assoc]
  rw [List.drop_left' (by simp [Nat.min_eq_left h])]

theorem take_append_le {X e : List Nat} {n : Nat} (h : n ≤ X.length) :
    (X ++ e).take n = X.take n := by
  conv_lhs => rw [← List.take_append_drop n X, List.append_assoc]
  rw [List.take_left' (by simp [Nat.min_eq_left h])]

theorem findPreamble_cons₂ (a b : Nat) (rest : List Nat) :
    Sim.findPreamble (a :: b :: rest) =
      if a = 0x55 ∧ b = 0xFF then some 0
      else (Sim.findPreamble (b :: rest)).map (· + 1) := rfl

theorem findPreamble_short : ∀ (l : List Nat), l.length ≤ 1 → Sim.findPreamble l = none
  | [], _ => rfl
  | [_], _ => rfl

theorem findPreamble_append_some {B : List Nat} {p : Nat}
    (h : Sim.findPreamble B = some p) (e : List Nat) :
    Sim.findPreamble (B ++ e) = some p := by
  induction B generalizing p with
  | nil => simp [Sim.findPreamble] at h
  | cons a t ih =>
    cases t with
    | nil => simp [Sim.findPreamble] at h
    | cons b r =>
      rw [findPreamble_cons₂] at h
      show Sim.findPreamble (a :: b :: (r ++ e)) = some p
      rw [findPreamble_cons₂]
      by_cases hab : a = 0x55 ∧ b = 0xFF
      · rw [if_pos hab] at h ⊢
        exact h
      · rw [if_neg hab] at h ⊢
        cases hq : Sim.findPreamble (b :: r) with
        | none => rw [hq] at h; simp at h
        | some q =>
          rw [hq] at h
          have := ih hq
          rw [show (b :: r) ++ e = b :: (r ++ e) from rfl] at this
          rw [this]
          exact h

theorem findPreamble_drop_pre {B : List Nat} {p : Nat}
    (h : Sim.findPreamble B = some p) :
    ∃ rest, B.drop p = 0x55 :: 0xFF :: rest := by
  induction B generalizing p with
  | nil => simp [Sim.findPreamble] at h
  | cons a t ih =>
    cases t with
    | nil => simp [Sim.findPreamble] at h
    | cons b r =>
      rw [findPreamble_cons₂] at h
      by_cases hab : a = 0x55 ∧ b = 0xFF
      · rw [if_pos hab] at h
        obtain rfl : (0 : Nat) = p := by simpa using h
        exact ⟨r, by simp [hab.1, hab.2]⟩
      · rw [if_neg hab] at h
        cases hq : Sim.findPreamble (b :: r) with
        | none => rw [hq] at h; simp at h
        | some q =>
          rw [hq] at h
          obtain rfl : q + 1 = p := by simpa using h
          obtain ⟨rest, hrest⟩ := ih hq
          exact ⟨rest, by simpa using hrest⟩

theorem findPreamble_take_pre {B : List Nat} {p : Nat}
    (h : Sim.findPreamble B = some p) :
    Sim.findPreamble (B.take (p + 1)) = none := by
  induction B generalizing p with
  | nil => simp [Sim.findPreamble] at h
  | cons a t ih =>
    cases t with
    | nil => simp [Sim.findPreamble] at h
    | cons b r =>
      rw [findPreamble_cons₂] at h
      by_cases hab : a = 0x55 ∧ b = 0xFF
      · rw [if_pos hab] at h
        obtain rfl : (0 : Nat) = p := by simpa using h
        rfl
      · rw [if_neg hab] at h
        cases hq : Sim.findPreamble (b :: r) with
        | none => rw [hq] at h; simp at h
        | some q =>
          rw [hq] at h
          obtain rfl : q + 1 = p := by simpa using h
          have h2 := ih hq
          show Sim.findPreamble (a :: (b :: r).take (q + 1)) = none
          have h3 : ∃ y ys, (b :: r).take (q + 1) = y :: ys := ⟨b, r.take q, by simp⟩
          obtain ⟨y, ys, hy⟩ := h3
          have hyb : y = b := by
            have := congrArg (fun l => l.headD 0) hy
            simpa using this.symm
          rw [hy, findPreamble_cons₂, if_neg (by rw [hyb]; exact hab), ← hy, h2]
          rfl

theorem findPreamble_cons_none {a : Nat} {t : List Nat}
    (h : Sim.findPreamble (a :: t) = none) : Sim.findPreamble t = none := by
  cases t with
  | nil => rfl
  | cons b r =>
    rw [findPreamble_cons₂] at h
    by_cases hab : a = 0x55 ∧ b = 0xFF
    · rw [if_pos hab] at h; simp at h
    · rw [if_neg hab] at h
      cases hq : Sim.findPreamble (b :: r) with
      | none => rfl
      | some q => rw [hq] at h; simp at h

theorem findPreamble_drop_none {B : List Nat}
    (h : Sim.findPreamble B = none) (k : Nat) :
    Sim.findPreamble (B.drop k) = none := by
  induction k generalizing B with
  | zero => simpa using h
  | succ n ih =>
    cases B with
    | nil => rfl
    | cons a t =>
      rw [List.drop_succ_cons]
      exact ih (findPreamble_cons_none h)

theorem findPreamble_shift (j : List Nat) : ∀ (y : Nat) (ys : List Nat),
    Sim.findPreamble (j ++ [y]) = none →
    Sim.findPreamble (j ++ y :: ys) = (Sim.findPreamble (y :: ys)).map (· + j.length) := by
  induction j with
  | nil =>
    intro y ys _
    cases h : Sim.findPreamble (y :: ys) <;> simp [h]
  | cons a j' ih =>
    intro y ys hnp
    cases j' with
    | nil =>
      rw [show ([a] ++ y :: ys) = a :: y :: ys from rfl, findPreamble_cons₂]
      rw [show ([a] ++ [y]) = a :: y :: ([] : List Nat) from rfl, findPreamble_cons₂] at hnp
      by_cases hab : a = 0x55 ∧ y = 0xFF
      · rw [if_pos hab] at hnp
        simp at hnp
      · rw [if_neg hab]
        cases h : Sim.findPreamble (y :: ys) <;> simp [h]
    | cons b j'' =>
      have e1 : (a :: b :: j'') ++ y :: ys = a :: b :: (j'' ++ y :: ys) := by simp
      have e2 : (a :: b :: j'') ++ [y] = a :: b :: (j'' ++ [y]) := by simp
      rw [e1, findPreamble_cons₂]
      rw [e2, findPreamble_cons₂] at hnp
      by_cases hab : a = 0x55 ∧ b = 0xFF
      · rw [if_pos hab] at hnp
        simp at hnp
      · rw [if_neg hab] at hnp ⊢
        cases hq : Sim.findPreamble (b :: (j'' ++ [y])) with
        | some q =>
          rw [hq] at hnp
          simp at hnp
        | none =>
          have h2 := ih y ys (by simpa using hq)
          have e3 : (b :: j'') ++ y :: ys = b :: (j'' ++ y :: ys) := by simp
          rw [e3] at h2
          rw [h2]
          cases h : Sim.findPreamble (y :: ys) with
          | none => simp [h]
          | some v =>
            simp [h]
            omega

theorem parse_frame_eq_parseAt {B : List Nat} {p : Nat}
    (h8 : ¬ B.length < 8) (hfp : Sim.findPreamble B = some p) :
    Sim.parse_frame B = Sim.parseAt (B.drop p) := by
  unfold Sim.parse_frame Sim.parseAt
  rw [if_neg h8, hfp]

theorem parse_frame_pre (r : List Nat) :
    Sim.parse_frame (0x55 :: 0xFF :: r) = Sim.parseAt (0x55 :: 0xFF :: r) := by
  by_cases h8 : (0x55 :: 0xFF :: r).length < 8
  · unfold Sim.parse_frame Sim.parseAt
    rw [if_pos h8, if_pos h8]
  · have hfp : Sim.findPreamble (0x55 :: 0xFF :: r) = some 0 := by
      rw [findPreamble_cons₂, if_pos ⟨rfl, rfl⟩]
    rw [parse_frame_eq_parseAt h8 hfp, List.drop_zero]

theorem parse_frame_quiescent_short {B : List Nat} (h8 : B.length < 8) :
    Sim.parse_frame B = (none, B) := by
  unfold Sim.parse_frame
  rw [if_pos h8]

theorem parseAt_snd (X : List Nat) :
    (Sim.parseAt X).2 = X ∨ (Sim.parseAt X).2 = X.drop 2 ∨
    ∃ fs, 8 ≤ fs ∧ (Sim.parseAt X).2 = X.drop fs := by
  unfold Sim.parseAt
  dsimp only
  split
  · exact Or.inl rfl
  split
  · exact Or.inr (Or.inl rfl)
  split
  · next hdl =>
    split
    · exact Or.inl rfl
    split
    · exact Or.inr (Or.inl rfl)
    · exact Or.inr (Or.inr ⟨_, by omega, rfl⟩)
  · exact Or.inr (Or.inr ⟨8, le_refl 8, rfl⟩)

theorem parseAt_fst_some {X : List Nat} {f : Frame} {X' : List Nat}
    (h : Sim.parseAt X = (some f, X')) :
    ∃ fs, 8 ≤ fs ∧ fs ≤ X.length ∧ X' = X.drop fs := by
  unfold Sim.parseAt at h
  dsimp only at h
  split at h
  · simp at h
  split at h
  · simp at h
  split at h
  · next hdl =>
    split at h
    · simp at h
    next hsz =>
      split at h
      · simp at h
      · exact ⟨_, by omega, by omega, (congrArg Prod.snd h).symm⟩
  · next h8 _ _ =>
    exact ⟨8, le_refl 8, by omega, (congrArg Prod.snd h).symm⟩

theorem parse_frame_snd_cases (B : List Nat) :
    (Sim.parse_frame B).2 = B ∨ (Sim.parse_frame B).2.length < B.length := by
  by_cases h8 : B.length < 8
  · rw [parse_frame_quiescent_short h8]
    exact Or.inl rfl
  cases hfp : Sim.findPreamble B with
  | none =>
    have hpf : Sim.parse_frame B =
        (none, if 1 < B.length then B.drop (B.length - 1) else B) := by
      unfold Sim.parse_frame
      rw [if_neg h8, hfp]
    rw [hpf]
    right
    rw [if_pos (by omega)]
    simp
    omega
  | some p =>
    rw [parse_frame_eq_parseAt h8 hfp]
    rcases parseAt_snd (B.drop p) with h | h | ⟨fs, hfs, h⟩
    · rw [h]
      rcases Nat.eq_zero_or_pos p with rfl | hp
      · exact Or.inl (by simp)
      · right
        simp only [List.length_drop]
        omega
    · right
      rw [h]
      simp only [List.drop_drop, List.length_drop]
      omega
    · right
      rw [h]
      simp only [List.drop_drop, List.length_drop]
      omega

theorem parse_frame_some_shrinks {B : List Nat} {f : Frame} {B' : List Nat}
    (h : Sim.parse_frame B = (some f, B')) : B'.length < B.length := by
  by_cases h8 : B.length < 8
  · rw [parse_frame_quiescent_short h8] at h
    simp at h
  cases hfp : Sim.findPreamble B with
  | none =>
    have hpf : Sim.parse_frame B =
        (none, if 1 < B.length then B.drop (B.length - 1) else B) := by
      unfold Sim.parse_frame
      rw [if_neg h8, hfp]
    rw [hpf] at h
    simp at h
  | some p =>
    rw [parse_frame_eq_parseAt h8 hfp] at h
    obtain ⟨fs, hfs8, hfsle, hB'⟩ := parseAt_fst_some h
    subst hB'
    simp only [List.drop_drop, List.length_drop]
    omega

theorem parse_frame_changed_shrinks {B : List Nat}
    (h : (Sim.parse_frame B).2 ≠ B) : (Sim.parse_frame B).2.length < B.length := by
  rcases parse_frame_snd_cases B with h1 | h1
  · exact absurd h1 h
  · exact h1

theorem drainF_quiescent {B : List Nat}
    (h : Sim.parse_frame B = (none, B)) (fuel : Nat) :
    Sim.drainF fuel B = (B, []) := by
  cases fuel with
  | zero => rfl
  | succ n =>
    show (match Sim.parse_frame B with
      | (some f, buf') =>
          let r := Sim.drainF n buf'
          (r.1, f :: r.2)
      | (none, buf') => if buf' = B then (B, []) else Sim.drainF n buf') = (B, [])
    rw [h]
    simp

theorem drainF_succ_some {B : List Nat} {f : Frame} {B' : List Nat}
    (h : Sim.parse_frame B = (some f, B')) (fuel : Nat) :
    Sim.drainF (fuel + 1) B = ((Sim.drainF fuel B').1, f :: (Sim.drainF fuel B').2) := by
  show (match Sim.parse_frame B with
    | (some f, buf') =>
        let r := Sim.drainF fuel buf'
        (r.1, f :: r.2)
    | (none, buf') => if buf' = B then (B, []) else Sim.drainF fuel buf') = _
  rw [h]

theorem drainF_succ_none {B B' : List Nat}
    (h : Sim.parse_frame B = (none, B')) (hne : B' ≠ B) (fuel : Nat) :
    Sim.drainF (fuel + 1) B = Sim.drainF fuel B' := by
  show (match Sim.parse_frame B with
    | (some f, buf') =>
        let r := Sim.drainF fuel buf'
        (r.1, f :: r.2)
    | (none, buf') => if buf' = B then (B, []) else Sim.drainF fuel buf') = _
  rw [h]
  simp [hne]

theorem drainF_any_fuel : ∀ (n : Nat) (B : List Nat), B.length ≤ n →
    ∀ f1 f2, B.length ≤ f1 → B.length ≤ f2 → Sim.drainF f1 B = Sim.drainF f2 B := by
  intro n
  induction n with
  | zero =>
    intro B hB f1 f2 _ _
    have hnil : B = [] := List.length_eq_zero.mp (by omega)
    subst hnil
    rw [drainF_quiescent (parse_frame_quiescent_short (by simp)) f1,
        drainF_quiescent (parse_frame_quiescent_short (by simp)) f2]
  | succ n ih =>
    intro B hB f1 f2 h1 h2
    cases hp : Sim.parse_frame B with
    | mk r B' =>
      cases r with
      | some f =>
        have hlt : B'.length < B.length := parse_frame_some_shrinks hp
        have hpos : 0 < B.length := by omega
        obtain ⟨g1, rfl⟩ : ∃ g1, f1 = g1 + 1 := ⟨f1 - 1, by omega⟩
        obtain ⟨g2, rfl⟩ : ∃ g2, f2 = g2 + 1 := ⟨f2 - 1, by omega⟩
        rw [drainF_succ_some hp, drainF_succ_some hp,
            ih B' (by omega) g1 g2 (by omega) (by omega)]
      | none =>
        by_cases hq : B' = B
        · subst hq
          rw [drainF_quiescent hp, drainF_quiescent hp]
        · have hlt : B'.length < B.length := by
            have := parse_frame_changed_shrinks (B := B) (by rw [hp]; exact hq)
            rwa [hp] at this
          have hpos : 0 < B.length := by omega
          obtain ⟨g1, rfl⟩ : ∃ g1, f1 = g1 + 1 := ⟨f1 - 1, by omega⟩
          obtain ⟨g2, rfl⟩ : ∃ g2, f2 = g2 + 1 := ⟨f2 - 1, by omega⟩
          rw [drainF_succ_none hp hq, drainF_succ_none hp hq,
              ih B' (by omega) g1 g2 (by omega) (by omega)]

theorem drainF_eq_drain {B : List Nat} {fuel : Nat} (h : B.length ≤ fuel) :
    Sim.drainF fuel B = Sim.drain B :=
  drainF_any_fuel fuel B h fuel B.length h (le_refl _)

theorem drain_quiescent_eq {B : List Nat}
    (h : Sim.parse_frame B = (none, B)) : Sim.drain B = (B, []) :=
  drainF_quiescent h B.length

theorem drain_step_some {B : List Nat} {f : Frame} {B' : List Nat}
    (h : Sim.parse_frame B = (some f, B')) :
    Sim.drain B = ((Sim.drain B').1, f :: (Sim.drain B').2) := by
  have hlt : B'.length < B.length := parse_frame_some_shrinks h
  obtain ⟨l, hl⟩ : ∃ l, B.length = l + 1 := ⟨B.length - 1, by omega⟩
  show Sim.drainF B.length B = _
  rw [hl, drainF_succ_some h, drainF_eq_drain (by omega)]

theorem drain_step_none {B B' : List Nat}
    (h : Sim.parse_frame B = (none, B')) (hne : B' ≠ B) :
    Sim.drain B = Sim.drain B' := by
  have hlt : B'.length < B.length := by
    have := parse_frame_changed_shrinks (B := B) (by rw [h]; exact hne)
    rwa [h] at this
  obtain ⟨l, hl⟩ : ∃ l, B.length = l + 1 := ⟨B.length - 1, by omega⟩
  show Sim.drainF B.length B = _
  rw [hl, drainF_succ_none h hne, drainF_eq_drain (by omega)]

theorem drain_eq_of_parse_eq {B1 B2 : List Nat}
    (h : Sim.parse_frame B1 = Sim.parse_frame B2) :
    Sim.drain B1 = Sim.drain B2 := by
  cases hp1 : Sim.parse_frame B1 with
  | mk r C =>
    have hp2 : Sim.parse_frame B2 = (r, C) := by rw [← h, hp1]
    cases r with
    | some f => rw [drain_step_some hp1, drain_step_some hp2]
    | none =>
      by_cases hc1 : C = B1
      · subst hc1
        by_cases hc2 : C = B2
        · subst hc2; rfl
        · rw [drain_quiescent_eq hp1, drain_step_none hp2 hc2,
              drain_quiescent_eq hp1]
      · by_cases hc2 : C = B2
        · subst hc2
          rw [drain_step_none hp1 hc1, drain_quiescent_eq hp2]
        · rw [drain_step_none hp1 hc1, drain_step_none hp2 hc2]

theorem findPreamble_bound {B : List Nat} {p : Nat}
    (h : Sim.findPreamble B = some p) : p + 2 ≤ B.length := by
  obtain ⟨rest, hrest⟩ := findPreamble_drop_pre h
  have := congrArg List.length hrest
  simp only [List.length_drop, List.length_cons] at this
  omega

theorem parseAt_append {X : List Nat} (h8 : ¬ X.length < 8) (e : List Nat) :
    Sim.parseAt X = (none, X) ∨
    (Sim.parseAt X = (none, X.drop 2) ∧
      Sim.parseAt (X ++ e) = (none, X.drop 2 ++ e)) ∨
    (∃ f fs, 8 ≤ fs ∧ fs ≤ X.length ∧ Sim.parseAt X = (some f, X.drop fs) ∧
      Sim.parseAt (X ++ e) = (some f, X.drop fs ++ e)) := by
  have hg : ∀ i, i < X.length → (X ++ e).getD i 0 = X.getD i 0 :=
    fun i hi => List.getD_append _ _ _ _ hi
  have h2 : (X ++ e).drop 2 = X.drop 2 ++ e := drop_append_le (by omega)
  have hcrc5 : ((X ++ e).drop 2).take 5 = (X.drop 2).take 5 := by
    rw [h2, take_append_le (by simp only [List.length_drop]; omega)]
  have hlenA : ¬ (X ++ e).length < 8 := by
    simp only [List.length_append]
    omega
  unfold Sim.parseAt
  rw [if_neg h8, if_neg hlenA]
  dsimp only
  rw [hg 2 (by omega), hg 3 (by omega), hg 4 (by omega), hg 5 (by omega),
      hg 6 (by omega), hg 7 (by omega), hcrc5]
  by_cases hbad : Sim.crc8_header ((X.drop 2).take 5) ≠ X.getD 7 0
  · simp only [if_pos hbad]
    rw [h2]
    exact Or.inr (Or.inl ⟨trivial, rfl⟩)
  · simp only [if_neg hbad]
    by_cases hpos : 0 < (X.getD 5 0) <<< 8 ||| X.getD 6 0
    · simp only [if_pos hpos]
      by_cases hsz : X.length < 8 + ((X.getD 5 0) <<< 8 ||| X.getD 6 0) + 2
      · rw [if_pos hsz]
        exact Or.inl rfl
      · rw [if_neg hsz]
        have hszA : ¬ (X ++ e).length < 8 + ((X.getD 5 0) <<< 8 ||| X.getD 6 0) + 2 := by
          simp only [List.length_append]
          omega
        rw [if_neg hszA]
        have hd : ((X ++ e).drop 8).take ((X.getD 5 0) <<< 8 ||| X.getD 6 0) =
            (X.drop 8).take ((X.getD 5 0) <<< 8 ||| X.getD 6 0) := by
          rw [drop_append_le (by omega), take_append_le (by simp only [List.length_drop]; omega)]
        rw [hd, hg (8 + ((X.getD 5 0) <<< 8 ||| X.getD 6 0)) (by omega),
            hg (8 + ((X.getD 5 0) <<< 8 ||| X.getD 6 0) + 1) (by omega)]
        by_cases hc16 : Sim.crc16_data ((X.drop 8).take ((X.getD 5 0) <<< 8 ||| X.getD 6 0)) ≠
            (X.getD (8 + ((X.getD 5 0) <<< 8 ||| X.getD 6 0)) 0 |||
              (X.getD (8 + ((X.getD 5 0) <<< 8 ||| X.getD 6 0) + 1) 0) <<< 8)
        · simp only [if_pos hc16]
          rw [h2]
          exact Or.inr (Or.inl ⟨trivial, rfl⟩)
        · simp only [if_neg hc16]
          refine Or.inr (Or.inr ⟨_, 8 + ((X.getD 5 0) <<< 8 ||| X.getD 6 0) + 2,
            by omega, by omega, rfl, ?_⟩)
          rw [drop_append_le (by omega)]
    · simp only [if_neg hpos]
      rw [if_neg h8, if_neg hlenA]
      refine Or.inr (Or.inr ⟨_, 8, le_refl 8, by omega, rfl, ?_⟩)
      rw [drop_append_le (by omega)]

theorem bufEquiv_refl (B : List Nat) : Sim.BufEquiv B B :=
  ⟨B, [], [], (List.nil_append B).symm, (List.nil_append B).symm,
    Or.inl rfl, Or.inl rfl⟩

theorem bufEquiv_symm {B1 B2 : List Nat} (h : Sim.BufEquiv B1 B2) :
    Sim.BufEquiv B2 B1 := by
  obtain ⟨m, j1, j2, h1, h2, hj1, hj2⟩ := h
  exact ⟨m, j2, j1, h2, h1, hj2, hj1⟩

theorem junk_nil_right {j : List Nat} (h : Sim.Junk j []) : j = [] := by
  rcases h with h | ⟨h, -⟩
  · exact h
  · exact absurd rfl h

theorem junk_drop {j m : List Nat} (hj : Sim.Junk j m) (k : Nat) :
    Sim.Junk (j.drop k) m := by
  rcases hj with rfl | ⟨hm, hnp⟩
  · exact Or.inl (by simp)
  · refine Or.inr ⟨hm, ?_⟩
    have : (j ++ m.take 1).drop k = j.drop k ++ m.take 1 ∨
        Sim.findPreamble (j.drop k ++ m.take 1) = none := by
      by_cases hk : k ≤ j.length
      · exact Or.inl (drop_append_le hk)
      · right
        rw [List.drop_eq_nil_of_le (by omega), List.nil_append]
        apply findPreamble_short
        cases m with
        | nil => simp
        | cons a t => simp
    rcases this with heq | hdone
    · rw [← heq]
      exact findPreamble_drop_none hnp k
    · exact hdone

theorem junk_suffix_sub {C jA A jB B : List Nat}
    (hA : C = jA ++ A) (hjA : Sim.Junk jA A)
    (hB : C = jB ++ B) (_hjB : Sim.Junk jB B)
    (hle : A.length ≤ B.length) :
    B = jA.drop jB.length ++ A ∧ Sim.Junk (jA.drop jB.length) A := by
  have hlen : jB.length ≤ jA.length := by
    have := congrArg List.length hA
    have h2 := congrArg List.length hB
    simp only [List.length_append] at this h2
    omega
  have hBval : B = jA.drop jB.length ++ A := by
    have h1 : (jA ++ A).drop jB.length = jA.drop jB.length ++ A :=
      drop_append_le hlen
    have h2 : (jB ++ B).drop jB.length = B := by
      rw [drop_append_le (le_refl _), List.drop_length, List.nil_append]
    rw [← h2, ← hB, hA, h1]
  exact ⟨hBval, junk_drop hjA jB.length⟩

theorem junk_glue {k mid m B' : List Nat}
    (hk : Sim.Junk k B') (hB' : B' = mid ++ m) (hmid : Sim.Junk mid m) :
    Sim.Junk (k ++ mid) m := by
  rcases hmid with rfl | ⟨hm, hnpm⟩
  · rcases hk with rfl | ⟨hB'ne, hnpk⟩
    · exact Or.inl (by simp)
    · simp only [List.nil_append] at hB'
      subst hB'
      exact Or.inr ⟨fun h => hB'ne h, by simpa using hnpk⟩
  · rcases hk with rfl | ⟨hB'ne, hnpk⟩
    · simpa using Or.inr ⟨hm, hnpm⟩
    · refine Or.inr ⟨hm, ?_⟩
      cases hmide : mid with
      | nil =>
        subst hmide
        simp only [List.nil_append] at hB'
        subst hB'
        simpa using hnpk
      | cons c mid' =>
        subst hmide
        have hB'take : B'.take 1 = [c] := by rw [hB']; rfl
        have hk1 : Sim.findPreamble (k ++ [c]) = none := by
          rw [← hB'take]
          exact hnpk
        have hshift := findPreamble_shift k c (mid' ++ m.take 1) hk1
        have he : k ++ (c :: mid') ++ m.take 1 = k ++ c :: (mid' ++ m.take 1) := by
          simp
        rw [he, hshift]
        have : Sim.findPreamble (c :: (mid' ++ m.take 1)) = none := by
          have he2 : c :: (mid' ++ m.take 1) = (c :: mid') ++ m.take 1 := by simp
          rw [he2]
          exact hnpm
        rw [this]
        rfl

theorem bufEquiv_trans_aux {B1 B2 B3 m j1 j2 k2 k3 m' : List Nat}
    (h1 : B1 = j1 ++ m) (hj1 : Sim.Junk j1 m)
    (h2 : B2 = j2 ++ m) (hj2 : Sim.Junk j2 m)
    (h2' : B2 = k2 ++ m') (hk2 : Sim.Junk k2 m')
    (h3 : B3 = k3 ++ m') (hk3 : Sim.Junk k3 m')
    (hle : m.length ≤ m'.length) : Sim.BufEquiv B1 B3 := by
  obtain ⟨hm', hmid⟩ := junk_suffix_sub h2 hj2 h2' hk2 hle
  refine ⟨m, j1, k3 ++ j2.drop k2.length, h1, ?_, hj1, ?_⟩
  · rw [h3, hm', List.append_assoc]
  · exact junk_glue hk3 hm' hmid

theorem bufEquiv_trans {B1 B2 B3 : List Nat}
    (h : Sim.BufEquiv B1 B2) (h' : Sim.BufEquiv B2 B3) : Sim.BufEquiv B1 B3 := by
  obtain ⟨m, j1, j2, e1, e2, hj1, hj2⟩ := h
  obtain ⟨m', k2, k3, e2', e3, hk2, hk3⟩ := h'
  rcases le_total m.length m'.length with hle | hle
  · exact bufEquiv_trans_aux e1 hj1 e2 hj2 e2' hk2 e3 hk3 hle
  · exact bufEquiv_symm (bufEquiv_trans_aux e3 hk3 e2' hk2 e2 hj2 e1 hj1 hle)

theorem parseAt_short {X : List Nat} (h : X.length < 8) :
    Sim.parseAt X = (none, X) := by
  unfold Sim.parseAt
  rw [if_pos h]

theorem drop_last_singleton {S : List Nat} (h : S ≠ []) :
    ∃ x, S.drop (S.length - 1) = [x] := by
  have hl : (S.drop (S.length - 1)).length = 1 := by
    simp only [List.length_drop]
    have : 0 < S.length := List.length_pos.mpr h
    omega
  exact List.length_eq_one.mp hl

theorem drop_append_add (j S : List Nat) (k : Nat) :
    (j ++ S).drop (j.length + k) = S.drop k := by
  rw [← List.drop_drop, List.drop_left]

theorem parse_frame_no_preamble {B : List Nat} (h8 : ¬ B.length < 8)
    (hfp : Sim.findPreamble B = none) :
    Sim.parse_frame B = (none, B.drop (B.length - 1)) := by
  unfold Sim.parse_frame
  rw [if_neg h8, hfp]
  dsimp only
  rw [if_pos (by omega)]

theorem parse_frame_at_pre {B : List Nat} {p : Nat}
    (h : Sim.findPreamble B = some p) :
    Sim.parse_frame (B.drop p) = Sim.parseAt (B.drop p) := by
  obtain ⟨rest, hrest⟩ := findPreamble_drop_pre h
  rw [hrest, parse_frame_pre]

theorem parse_frame_at_pre_append {B : List Nat} {p : Nat}
    (h : Sim.findPreamble B = some p) (e : List Nat) :
    Sim.parse_frame (B.drop p ++ e) = Sim.parseAt (B.drop p ++ e) := by
  obtain ⟨rest, hrest⟩ := findPreamble_drop_pre h
  rw [hrest]
  exact parse_frame_pre (rest ++ e)

theorem junk_drain (j S : List Nat) (hS : S ≠ [])
    (hnp : Sim.findPreamble (j ++ S.take 1) = none) :
    (Sim.drain (j ++ S)).2 = (Sim.drain S).2 ∧
    Sim.BufEquiv (Sim.drain (j ++ S)).1 (Sim.drain S).1 := by
  by_cases hlen : (j ++ S).length < 8
  · have hSlen : S.length < 8 := by
      simp only [List.length_append] at hlen
      omega
    rw [drain_quiescent_eq (parse_frame_quiescent_short hlen),
        drain_quiescent_eq (parse_frame_quiescent_short hSlen)]
    exact ⟨rfl, ⟨S, j, [], rfl, (List.nil_append S).symm,
      Or.inr ⟨hS, hnp⟩, Or.inl rfl⟩⟩
  · obtain ⟨y, ys, rfl⟩ : ∃ y ys, S = y :: ys := by
      cases S with
      | nil => exact absurd rfl hS
      | cons a t => exact ⟨a, t, rfl⟩
    have htake : (y :: ys).take 1 = [y] := rfl
    rw [htake] at hnp
    have hshift := findPreamble_shift j y ys hnp
    cases hfS : Sim.findPreamble (y :: ys) with
    | none =>
      have hfjS : Sim.findPreamble (j ++ y :: ys) = none := by
        rw [hshift, hfS]
        rfl
      obtain ⟨x, hx⟩ := drop_last_singleton (show (y :: ys) ≠ [] by simp)
      have hTeq : (j ++ y :: ys).drop ((j ++ y :: ys).length - 1) =
          (y :: ys).drop ((y :: ys).length - 1) := by
        have he : (j ++ y :: ys).length - 1 = j.length + ((y :: ys).length - 1) := by
          simp only [List.length_append, List.length_cons]
          omega
        rw [he, drop_append_add]
      have hpf : Sim.parse_frame (j ++ y :: ys) = (none, [x]) := by
        rw [parse_frame_no_preamble hlen hfjS, hTeq, hx]
      have hd1 : Sim.drain (j ++ y :: ys) = ([x], []) := by
        rw [drain_step_none hpf (by
          intro hcon
          exact hlen (by rw [← hcon]; simp)),
          drain_quiescent_eq (parse_frame_quiescent_short (by simp))]
      by_cases h8S : (y :: ys).length < 8
      · have hd2 : Sim.drain (y :: ys) = (y :: ys, []) :=
          drain_quiescent_eq (parse_frame_quiescent_short h8S)
        rw [hd1, hd2]
        refine ⟨rfl, ⟨[x], [], (y :: ys).take ((y :: ys).length - 1),
          (List.nil_append _).symm, ?_, Or.inl rfl, ?_⟩⟩
        · rw [← hx, List.take_append_drop]
        · refine Or.inr ⟨by simp, ?_⟩
          have he2 : (y :: ys).take ((y :: ys).length - 1) ++ [x].take 1 = y :: ys := by
            rw [show [x].take 1 = [x] from rfl, ← hx, List.take_append_drop]
          rw [he2, hfS]
      · have hpfS : Sim.parse_frame (y :: ys) = (none, [x]) := by
          rw [parse_frame_no_preamble h8S hfS, hx]
        have hd2 : Sim.drain (y :: ys) = ([x], []) := by
          rw [drain_step_none hpfS (by
            intro hcon
            exact h8S (by rw [← hcon]; simp)),
            drain_quiescent_eq (parse_frame_quiescent_short (by simp))]
        rw [hd1, hd2]
        exact ⟨rfl, bufEquiv_refl [x]⟩
    | some q =>
      have hfjS : Sim.findPreamble (j ++ y :: ys) = some (q + j.length) := by
        rw [hshift, hfS]
        rfl
      have hq2 := findPreamble_bound hfS
      have hdropeq : (j ++ y :: ys).drop (q + j.length) = (y :: ys).drop q := by
        rw [Nat.add_comm, drop_append_add]
      have hpf : Sim.parse_frame (j ++ y :: ys) = Sim.parseAt ((y :: ys).drop q) := by
        rw [parse_frame_eq_parseAt hlen hfjS, hdropeq]
      by_cases h8S : (y :: ys).length < 8
      · have hshort : ((y :: ys).drop q).length < 8 := by
          simp only [List.length_drop]
          omega
        have hpf2 : Sim.parse_frame (j ++ y :: ys) = (none, (y :: ys).drop q) := by
          rw [hpf, parseAt_short hshort]
        have hne : (y :: ys).drop q ≠ j ++ y :: ys := by
          intro hcon
          exact hlen (by rw [← hcon]; exact hshort)
        have hd1 : Sim.drain (j ++ y :: ys) = ((y :: ys).drop q, []) := by
          rw [drain_step_none hpf2 hne,
              drain_quiescent_eq (parse_frame_quiescent_short hshort)]
        have hd2 : Sim.drain (y :: ys) = (y :: ys, []) :=
          drain_quiescent_eq (parse_frame_quiescent_short h8S)
        rw [hd1, hd2]
        refine ⟨rfl, ⟨(y :: ys).drop q, [], (y :: ys).take q,
          (List.nil_append _).symm, (List.take_append_drop q _).symm,
          Or.inl rfl, ?_⟩⟩
        refine Or.inr ⟨?_, ?_⟩
        · obtain ⟨rest, hrest⟩ := findPreamble_drop_pre hfS
          rw [hrest]
          simp
        · rw [← List.take_add]
          exact findPreamble_take_pre hfS
      · have heq : Sim.parse_frame (j ++ y :: ys) = Sim.parse_frame (y :: ys) := by
          rw [hpf, parse_frame_eq_parseAt h8S hfS]
        rw [drain_eq_of_parse_eq heq]
        exact ⟨rfl, bufEquiv_refl _⟩

theorem drain_append_aux : ∀ (n : Nat) (B : List Nat), B.length ≤ n → ∀ e,
    (Sim.drain (B ++ e)).2 = (Sim.drain B).2 ++ (Sim.drain ((Sim.drain B).1 ++ e)).2 ∧
    Sim.BufEquiv (Sim.drain (B ++ e)).1 (Sim.drain ((Sim.drain B).1 ++ e)).1 := by
  intro n
  induction n with
  | zero =>
    intro B hB e
    have hnil : B = [] := List.length_eq_zero.mp (by omega)
    subst hnil
    rw [drain_quiescent_eq (parse_frame_quiescent_short
      (show ([] : List Nat).length < 8 by simp))]
    exact ⟨(List.nil_append _).symm, bufEquiv_refl _⟩
  | succ n ih =>
    intro B hB e
    by_cases hq : Sim.parse_frame B = (none, B)
    · rw [drain_quiescent_eq hq]
      exact ⟨(List.nil_append _).symm, bufEquiv_refl _⟩
    have h8 : ¬ B.length < 8 := fun h => hq (parse_frame_quiescent_short h)
    cases hfp : Sim.findPreamble B with
    | none =>
      have hBne : B ≠ [] := by
        intro h
        subst h
        simp at h8
      obtain ⟨x, hx⟩ := drop_last_singleton hBne
      have hpf : Sim.parse_frame B = (none, [x]) := by
        rw [parse_frame_no_preamble h8 hfp, hx]
      have hnex : [x] ≠ B := by
        intro hc
        have := congrArg List.length hc
        rw [show ([x] : List Nat).length = 1 from rfl] at this
        omega
      have hd : Sim.drain B = ([x], []) := by
        rw [drain_step_none hpf hnex,
            drain_quiescent_eq (parse_frame_quiescent_short (by simp))]
      have hBsplit : B = B.take (B.length - 1) ++ [x] := by
        conv_lhs => rw [← List.take_append_drop (B.length - 1) B]
        rw [hx]
      have hBe : B ++ e = B.take (B.length - 1) ++ ([x] ++ e) := by
        conv_lhs => rw [hBsplit]
        rw [List.append_assoc]
      have hnp : Sim.findPreamble (B.take (B.length - 1) ++ ([x] ++ e).take 1) = none := by
        rw [show ([x] ++ e).take 1 = [x] from rfl, ← hBsplit]
        exact hfp
      have hjd := junk_drain (B.take (B.length - 1)) ([x] ++ e) (by simp) hnp
      rw [hd, hBe]
      refine ⟨?_, hjd.2⟩
      rw [hjd.1]
      exact (List.nil_append _).symm
    | some p =>
      have hp2 := findPreamble_bound hfp
      have hpfB : Sim.parse_frame B = Sim.parseAt (B.drop p) :=
        parse_frame_eq_parseAt h8 hfp
      have hfpe : Sim.findPreamble (B ++ e) = some p := findPreamble_append_some hfp e
      have h8e : ¬ (B ++ e).length < 8 := by
        simp only [List.length_append]
        omega
      have hpfBe : Sim.parse_frame (B ++ e) = Sim.parseAt (B.drop p ++ e) := by
        rw [parse_frame_eq_parseAt h8e hfpe, drop_append_le (by omega)]
      by_cases h8X : (B.drop p).length < 8
      · have hAtX : Sim.parseAt (B.drop p) = (none, B.drop p) := parseAt_short h8X
        have hp0 : p ≠ 0 := by
          intro h0
          subst h0
          apply hq
          rw [hpfB, hAtX, List.drop_zero]
        have hne : B.drop p ≠ B := by
          intro hc
          have := congrArg List.length hc
          simp only [List.length_drop] at this
          omega
        have hdB : Sim.drain B = (B.drop p, []) := by
          rw [drain_step_none (by rw [hpfB, hAtX]) hne,
              drain_quiescent_eq (parse_frame_quiescent_short h8X)]
        rw [hdB]
        have heqp : Sim.parse_frame (B ++ e) = Sim.parse_frame (B.drop p ++ e) := by
          rw [hpfBe, parse_frame_at_pre_append hfp e]
        rw [drain_eq_of_parse_eq heqp]
        exact ⟨(List.nil_append _).symm, bufEquiv_refl _⟩
      · rcases parseAt_append h8X e with hA | ⟨hA, hAe⟩ | ⟨f, fs, hfs8, hfsle, hA, hAe⟩
        · have hp0 : p ≠ 0 := by
            intro h0
            subst h0
            apply hq
            rw [hpfB, hA, List.drop_zero]
          have hne : B.drop p ≠ B := by
            intro hc
            have := congrArg List.length hc
            simp only [List.length_drop] at this
            omega
          have hdB : Sim.drain B = (B.drop p, []) := by
            rw [drain_step_none (by rw [hpfB, hA]) hne]
            exact drain_quiescent_eq (by rw [parse_frame_at_pre hfp, hA])
          rw [hdB]
          have heqp : Sim.parse_frame (B ++ e) = Sim.parse_frame (B.drop p ++ e) := by
            rw [hpfBe, parse_frame_at_pre_append hfp e]
          rw [drain_eq_of_parse_eq heqp]
          exact ⟨(List.nil_append _).symm, bufEquiv_refl _⟩
        · have hpfB2 : Sim.parse_frame B = (none, (B.drop p).drop 2) := by
            rw [hpfB, hA]
          have hne : (B.drop p).drop 2 ≠ B := by
            intro hc
            have := congrArg List.length hc
            simp only [List.length_drop] at this
            omega
          have hdB : Sim.drain B = Sim.drain ((B.drop p).drop 2) :=
            drain_step_none hpfB2 hne
          have hpfBe2 : Sim.parse_frame (B ++ e) = (none, (B.drop p).drop 2 ++ e) := by
            rw [hpfBe, hAe]
          have hnee : (B.drop p).drop 2 ++ e ≠ B ++ e := by
            intro hc
            have := congrArg List.length hc
            simp only [List.length_append, List.length_drop] at this
            omega
          have hdBe : Sim.drain (B ++ e) = Sim.drain ((B.drop p).drop 2 ++ e) :=
            drain_step_none hpfBe2 hnee
          rw [hdB, hdBe]
          exact ih ((B.drop p).drop 2) (by simp only [List.length_drop]; omega) e
        · have hpfB2 : Sim.parse_frame B = (some f, (B.drop p).drop fs) := by
            rw [hpfB, hA]
          have hpfBe2 : Sim.parse_frame (B ++ e) = (some f, (B.drop p).drop fs ++ e) := by
            rw [hpfBe, hAe]
          have hIH := ih ((B.drop p).drop fs) (by simp only [List.length_drop]; omega) e
          rw [drain_step_some hpfB2, drain_step_some hpfBe2]
          refine ⟨?_, hIH.2⟩
          show f :: (Sim.drain ((B.drop p).drop fs ++ e)).2 =
            (f :: (Sim.drain ((B.drop p).drop fs)).2) ++ _
          rw [List.cons_append, hIH.1]

theorem drain_append (B e : List Nat) :
    (Sim.drain (B ++ e)).2 = (Sim.drain B).2 ++ (Sim.drain ((Sim.drain B).1 ++ e)).2 ∧
    Sim.BufEquiv (Sim.drain (B ++ e)).1 (Sim.drain ((Sim.drain B).1 ++ e)).1 :=
  drain_append_aux B.length B (le_refl _) e

theorem junk_side {j m : List Nat} (hj : Sim.Junk j m) (e : List Nat) :
    (Sim.drain (j ++ m ++ e)).2 = (Sim.drain (m ++ e)).2 ∧
    Sim.BufEquiv (Sim.drain (j ++ m ++ e)).1 (Sim.drain (m ++ e)).1 := by
  rcases hj with rfl | ⟨hm, hnp⟩
  · rw [List.nil_append]
    exact ⟨rfl, bufEquiv_refl _⟩
  · have hSne : m ++ e ≠ [] := by
      intro hc
      exact hm (List.append_eq_nil.mp hc).1
    have htk : (m ++ e).take 1 = m.take 1 := by
      apply take_append_le
      cases m with
      | nil => exact absurd rfl hm
      | cons a t => simp
    have hnp2 : Sim.findPreamble (j ++ (m ++ e).take 1) = none := by
      rw [htk]
      exact hnp
    have h := junk_drain j (m ++ e) hSne hnp2
    rw [List.append_assoc]
    exact h

theorem drain_bufEquiv {B1 B2 : List Nat} (h : Sim.BufEquiv B1 B2) (e : List Nat) :
    (Sim.drain (B1 ++ e)).2 = (Sim.drain (B2 ++ e)).2 ∧
    Sim.BufEquiv (Sim.drain (B1 ++ e)).1 (Sim.drain (B2 ++ e)).1 := by
  obtain ⟨m, j1, j2, rfl, rfl, hj1, hj2⟩ := h
  have h1 := junk_side hj1 e
  have h2 := junk_side hj2 e
  exact ⟨h1.1.trans h2.1.symm, bufEquiv_trans h1.2 (bufEquiv_symm h2.2)⟩

theorem drain_fst_quiescent_aux : ∀ (n : Nat) (B : List Nat), B.length ≤ n →
    Sim.parse_frame ((Sim.drain B).1) = (none, (Sim.drain B).1) := by
  intro n
  induction n with
  | zero =>
    intro B hB
    have hnil : B = [] := List.length_eq_zero.mp (by omega)
    subst hnil
    rw [drain_quiescent_eq (parse_frame_quiescent_short
      (show ([] : List Nat).length < 8 by simp))]
    exact parse_frame_quiescent_short (by simp)
  | succ n ih =>
    intro B hB
    by_cases hq : Sim.parse_frame B = (none, B)
    · rw [drain_quiescent_eq hq]
      exact hq
    cases hp : Sim.parse_frame B with
    | mk r C =>
      cases r with
      | some f =>
        rw [drain_step_some hp]
        exact ih C (by
          have := parse_frame_some_shrinks hp
          omega)
      | none =>
        have hne : C ≠ B := by
          intro hc
          subst hc
          exact hq hp
        rw [drain_step_none hp hne]
        refine ih C ?_
        have h2 : C.length < B.length := by
          have h3 := parse_frame_changed_shrinks (B := B) (by rw [hp]; exact hne)
          rwa [hp] at h3
        omega

theorem drain_fst_quiescent (B : List Nat) :
    Sim.parse_frame ((Sim.drain B).1) = (none, (Sim.drain B).1) :=
  drain_fst_quiescent_aux B.length B (le_refl _)

theorem feedChunks_drain : ∀ (cs : List (List Nat)) (B1 B2 : List Nat),
    Sim.BufEquiv B1 B2 → Sim.parse_frame B2 = (none, B2) →
    (Sim.feedChunks B1 cs).2 = (Sim.drain (B2 ++ cs.flatten)).2 ∧
    Sim.BufEquiv (Sim.feedChunks B1 cs).1 (Sim.drain (B2 ++ cs.flatten)).1 := by
  intro cs
  induction cs with
  | nil =>
    intro B1 B2 he hq
    rw [List.flatten_nil, List.append_nil, drain_quiescent_eq hq]
    exact ⟨rfl, he⟩
  | cons c cs' ih =>
    intro B1 B2 he hq
    have hstep := drain_bufEquiv he c
    have hfuse := drain_append (B2 ++ c) cs'.flatten
    have hih := ih (Sim.drain (B1 ++ c)).1 (Sim.drain (B2 ++ c)).1 hstep.2
      (drain_fst_quiescent (B2 ++ c))
    constructor
    · show (Sim.drain (B1 ++ c)).2 ++ (Sim.feedChunks (Sim.drain (B1 ++ c)).1 cs').2 = _
      rw [List.flatten_cons, ← List.append_assoc, hfuse.1, hstep.1, hih.1]
    · show Sim.BufEquiv (Sim.feedChunks (Sim.drain (B1 ++ c)).1 cs').1 _
      rw [List.flatten_cons, ← List.append_assoc]
      exact bufEquiv_trans hih.2 (bufEquiv_symm hfuse.2)

/-- **C6.** Chunking invariance of the simulator framer: for every byte
stream, however it is split into chunks, feeding the chunks through
`process_rx` with the parse loop draining the buffer after each chunk
produces exactly the frame sequence obtained by draining the whole stream
at once; in particular feeding one byte at a time equals feeding all bytes
at once. -/
theorem chunking_invariance :
    (∀ cs : List (List Nat),
      (Sim.feedChunks [] cs).2 = (Sim.drain cs.flatten).2) ∧
    (∀ bytes : List Nat,
      (Sim.feedChunks [] (bytes.map (fun b => [b]))).2 = (Sim.drain bytes).2) := by
  have main : ∀ cs : List (List Nat),
      (Sim.feedChunks [] cs).2 = (Sim.drain cs.flatten).2 := by
    intro cs
    have h := feedChunks_drain cs [] [] (bufEquiv_refl [])
      (parse_frame_quiescent_short (show ([] : List Nat).length < 8 by simp))
    rw [List.nil_append] at h
    exact h.1
  refine ⟨main, fun bytes => ?_⟩
  have hflat : (bytes.map (fun b => [b])).flatten = bytes := by
    induction bytes with
    | nil => rfl
    | cons a t iht => simp only [List.map_cons, List.flatten_cons, iht, List.singleton_append]
  rw [main (bytes.map (fun b => [b])), hflat]

end MSTP
